import Mathlib

/-!
# em::basic_zstring_view (include/em/zstring_view.h)

A shallow embedding of the null-terminated string view and of the part of
`std::basic_string_view` it forwards to.

* Code units are natural numbers: the value `std::char_traits<T>` orders and
  compares them by (for `char` that is the `unsigned char` value).
* Memory is a set of arrays; a pointer is null or an array together with an
  element offset. Reading past the end of the array is not possible (`none`).
* `size_type` is the 64-bit `std::size_t`; `npos` is its largest value.
* A call either returns, lets `std::out_of_range` escape to the caller, or
  ends the program through `std::terminate`.
-/

namespace std

/-- The largest `std::size_t` (64-bit). -/
def SIZE_MAX : Nat := 2 ^ 64 - 1

/-- A `const T *`: the null pointer, or a pointer to element `off` of the array `arr`. -/
inductive const_pointer where
  | null : const_pointer
  | into (arr : List Nat) (off : Nat) : const_pointer
deriving DecidableEq, Repr

namespace const_pointer

/-- Reading `p[i]`: `none` when the element is not readable memory. -/
def read : const_pointer → Nat → Option Nat
  | null, _ => none
  | into arr off, i => arr[off + i]?

/-- Pointer arithmetic `p + n`. -/
def advance : const_pointer → Nat → const_pointer
  | null, _ => null
  | into arr off, n => into arr (off + n)

/-- The elements `p[0], ..., p[n-1]`, as far as they are readable. -/
def range : const_pointer → Nat → List Nat
  | null, _ => []
  | into arr off, n => (arr.drop off).take n

/-- The pointer `p` once the array it points into holds the elements `arr`: the same
position in the changed array. -/
def rebase : const_pointer → List Nat → const_pointer
  | null, _ => null
  | into _ off, arr => into arr off

/-- Whether `[p, p + n)` is readable memory. -/
def readable : const_pointer → Nat → Prop
  | null, _ => False
  | into arr off, n => off + n ≤ arr.length

instance (p : const_pointer) (n : Nat) : Decidable (p.readable n) := by
  cases p with
  | null => exact isFalse (fun h => h)
  | into arr off => exact inferInstanceAs (Decidable (off + n ≤ arr.length))

end const_pointer

/-- The scan of `std::char_traits<T>::length` over the elements that follow the pointer:
the number of elements before the first zero. Running off the readable memory without
meeting a zero is undefined behaviour (`none`). -/
def length_scan : List Nat → Option Nat
  | [] => none
  | c :: cs => if c = 0 then some 0 else (length_scan cs).map (fun n => n + 1)

/-- Library `std::char_traits<T>::length(s)`. -/
def traits_length : const_pointer → Option Nat
  | .null => none
  | .into arr off => length_scan (arr.drop off)

/-- Library `std::basic_string_view<T>`: a data pointer and a length. -/
structure basic_string_view where
  data_ : const_pointer
  size_ : Nat
deriving DecidableEq, Repr

/-- Library `std::basic_string<T>`: its characters; the storage holds them followed by a zero. -/
structure basic_string where
  chars : List Nat
deriving DecidableEq, Repr

namespace basic_string

/-- Library `std::basic_string::data()`, a pointer to the null-terminated storage. -/
def data (s : basic_string) : const_pointer := .into (s.chars ++ [0]) 0

/-- Library `std::basic_string::size()`. -/
def size (s : basic_string) : Nat := s.chars.length

end basic_string

/-- What a call does: return a value, let `std::out_of_range` escape, or end the
program through `std::terminate`. -/
inductive outcome (α : Type) where
  | returns (a : α) : outcome α
  | throws_out_of_range : outcome α
  | terminate : outcome α
deriving DecidableEq, Repr

/-- The `noexcept` specifier on a function: an exception leaving the body calls `std::terminate`. -/
def noexcept_ {α : Type} : outcome α → outcome α
  | .returns a => .returns a
  | .throws_out_of_range => .terminate
  | .terminate => .terminate

namespace basic_string_view

/-- Library `basic_string_view(const T *s)`: the length is `traits::length(s)`. -/
def from_pointer (s : const_pointer) : Option basic_string_view :=
  (traits_length s).map (fun n => ⟨s, n⟩)

/-- Library `basic_string_view(const T *s, size_type len)`. -/
def from_pointer_len (s : const_pointer) (len : Nat) : basic_string_view := ⟨s, len⟩

/-- Library `std::basic_string::operator basic_string_view()`. -/
def from_string (s : basic_string) : basic_string_view := ⟨s.data, s.size⟩

/-- Library `data()`. -/
def data (v : basic_string_view) : const_pointer := v.data_

/-- Library `size()`. -/
def size (v : basic_string_view) : Nat := v.size_

/-- Library `operator[](i)`: `data_[i]`, not checked. -/
def index (v : basic_string_view) (i : Nat) : Option Nat := v.data_.read i

/-- The viewed elements `[data_, data_ + size_)`. -/
def elems (v : basic_string_view) : List Nat := v.data_.range v.size_

/-- The precondition of every view: `[data_, data_ + size_)` is a valid range
(for the empty view the pointer may be null), and the size is a `size_type`. -/
def valid (v : basic_string_view) : Prop :=
  (v.size_ = 0 ∨ v.data_.readable v.size_) ∧ v.size_ ≤ SIZE_MAX

instance (v : basic_string_view) : Decidable v.valid :=
  inferInstanceAs (Decidable (_ ∧ _))

/-- Library `at(pos)`: throws `std::out_of_range` when `pos >= size()`. -/
def at_ (v : basic_string_view) (pos : Nat) : outcome (Option Nat) :=
  if pos ≥ v.size_ then .throws_out_of_range else .returns (v.data_.read pos)

/-- Library `substr(pos, n)`, `n` defaulting to `npos`: throws when `pos > size()`,
else the view of `min(n, size() - pos)` elements at `data_ + pos`. -/
def substr (v : basic_string_view) (pos : Nat) (n : Option Nat) : outcome basic_string_view :=
  if pos > v.size_ then .throws_out_of_range
  else .returns ⟨v.data_.advance pos, min (n.getD SIZE_MAX) (v.size_ - pos)⟩

/-- Whether the object expression of a member call is a const object. -/
inductive object_kind where
  | non_const : object_kind
  | const_ : object_kind
deriving DecidableEq, Repr

/-- Library `remove_prefix(n)`, a non-const member (`constexpr void remove_prefix(size_type n)`):
it moves the start forward by `n` and shrinks the size by `n`. The result is the object
after the call. On a const object no overload is viable, the call is ill-formed and
there is no program to run (`none`). -/
def remove_prefix (k : object_kind) (v : basic_string_view) (n : Nat) :
    Option basic_string_view :=
  match k with
  | .non_const => some ⟨v.data_.advance n, v.size_ - n⟩
  | .const_ => none

/-- The lowest index in `[lo, lo + count)` at which `p` holds, scanning upwards. -/
def scan_up (p : Nat → Bool) (lo : Nat) : Nat → Option Nat
  | 0 => none
  | count + 1 => if p lo then some lo else scan_up p (lo + 1) count

/-- The highest index in `[0, hi)` at which `p` holds, scanning downwards. -/
def scan_down (p : Nat → Bool) : Nat → Option Nat
  | 0 => none
  | hi + 1 => if p hi then some hi else scan_down p hi

/-- Library `traits::compare(data() + i, str, n) == 0` for a needle of `n` elements that fits. -/
def match_at (hay needle : List Nat) (i : Nat) : Bool :=
  (hay.drop i).take needle.length == needle

/-- Library `find(str, pos)`: the lowest `xpos >= pos` with `xpos + str.size() <= size()` at which
`str` occurs, else `npos`. -/
def find_elems (v : basic_string_view) (str : List Nat) (pos : Nat) : Nat :=
  (scan_up (match_at v.elems str) pos (v.size_ + 1 - str.length - pos)).getD SIZE_MAX

/-- Library `rfind(str, pos)`: the highest `xpos <= pos` with `xpos + str.size() <= size()` at which
`str` occurs, else `npos`. -/
def rfind_elems (v : basic_string_view) (str : List Nat) (pos : Nat) : Nat :=
  if str.length ≤ v.size_ then
    (scan_down (match_at v.elems str) (min (v.size_ - str.length) pos + 1)).getD SIZE_MAX
  else SIZE_MAX

/-- Library `find_last_of(str, pos)`: the highest `xpos <= pos` below `size()` whose element is one
of `str`, else `npos`. -/
def find_last_of_elems (v : basic_string_view) (str : List Nat) (pos : Nat) : Nat :=
  if 0 < v.size_ ∧ 0 < str.length then
    (scan_down (fun i => str.contains (v.elems.getD i 0)) (min (v.size_ - 1) pos + 1)).getD
      SIZE_MAX
  else SIZE_MAX

/-- Library `find_last_not_of(str, pos)`: the highest `xpos <= pos` below `size()` whose element is
none of `str`, else `npos`. -/
def find_last_not_of_elems (v : basic_string_view) (str : List Nat) (pos : Nat) : Nat :=
  if 0 < v.size_ then
    (scan_down (fun i => !str.contains (v.elems.getD i 0)) (min (v.size_ - 1) pos + 1)).getD
      SIZE_MAX
  else SIZE_MAX

/-- Library `find(basic_string_view v, size_type pos = 0)`; `pos = none` is the call without it. -/
def find (v str : basic_string_view) (pos : Option Nat) : Nat :=
  find_elems v str.elems (pos.getD 0)

/-- Library `find(T ch, size_type pos = 0)`: as `find(basic_string_view(&ch, 1), pos)`. -/
def find_char (v : basic_string_view) (ch : Nat) (pos : Option Nat) : Nat :=
  find_elems v [ch] (pos.getD 0)

/-- Library `find(const T *s, size_type pos = 0)`: as `find(basic_string_view(s), pos)`; `none`
when `s` has no terminator (undefined behaviour). -/
def find_cstr (v : basic_string_view) (s : const_pointer) (pos : Option Nat) : Option Nat :=
  (from_pointer s).map (fun str => find v str pos)

/-- Library `rfind(basic_string_view v, size_type pos = npos)`. -/
def rfind (v str : basic_string_view) (pos : Option Nat) : Nat :=
  rfind_elems v str.elems (pos.getD SIZE_MAX)

/-- Library `rfind(T ch, size_type pos = npos)`. -/
def rfind_char (v : basic_string_view) (ch : Nat) (pos : Option Nat) : Nat :=
  rfind_elems v [ch] (pos.getD SIZE_MAX)

/-- Library `rfind(const T *s, size_type pos = npos)`. -/
def rfind_cstr (v : basic_string_view) (s : const_pointer) (pos : Option Nat) : Option Nat :=
  (from_pointer s).map (fun str => rfind v str pos)

/-- Library `find_last_of(basic_string_view v, size_type pos = npos)`. -/
def find_last_of (v str : basic_string_view) (pos : Option Nat) : Nat :=
  find_last_of_elems v str.elems (pos.getD SIZE_MAX)

/-- Library `find_last_of(T ch, size_type pos = npos)`. -/
def find_last_of_char (v : basic_string_view) (ch : Nat) (pos : Option Nat) : Nat :=
  find_last_of_elems v [ch] (pos.getD SIZE_MAX)

/-- Library `find_last_of(const T *s, size_type pos = npos)`. -/
def find_last_of_cstr (v : basic_string_view) (s : const_pointer) (pos : Option Nat) :
    Option Nat :=
  (from_pointer s).map (fun str => find_last_of v str pos)

/-- Library `find_last_not_of(basic_string_view v, size_type pos = npos)`. -/
def find_last_not_of (v str : basic_string_view) (pos : Option Nat) : Nat :=
  find_last_not_of_elems v str.elems (pos.getD SIZE_MAX)

/-- Library `find_last_not_of(T ch, size_type pos = npos)`. -/
def find_last_not_of_char (v : basic_string_view) (ch : Nat) (pos : Option Nat) : Nat :=
  find_last_not_of_elems v [ch] (pos.getD SIZE_MAX)

/-- Library `find_last_not_of(const T *s, size_type pos = npos)`. -/
def find_last_not_of_cstr (v : basic_string_view) (s : const_pointer) (pos : Option Nat) :
    Option Nat :=
  (from_pointer s).map (fun str => find_last_not_of v str pos)

/-- Library `traits::compare(s1, s2, n)` on the two ranges of `n` elements: the sign of the first
difference, 0 when there is none. The standard fixes the sign of the result only; the
model returns -1, 0 or 1. -/
def traits_compare : List Nat → List Nat → Int
  | a :: as, b :: bs => if a < b then -1 else if b < a then 1 else traits_compare as bs
  | _, _ => 0

/-- Library `compare(basic_string_view str)`: `traits::compare` over the first
`rlen = min(size(), str.size())` elements, and on a tie the comparison of the sizes. -/
def compare (v str : basic_string_view) : Int :=
  let rlen := min v.size_ str.size_
  let result := traits_compare (v.data_.range rlen) (str.data_.range rlen)
  if result ≠ 0 then result
  else if v.size_ < str.size_ then -1
  else if v.size_ = str.size_ then 0
  else 1

/-- Library `compare(pos1, count1, str)`: `substr(pos1, count1).compare(str)`. -/
def compare_sub (v : basic_string_view) (pos1 count1 : Nat) (str : basic_string_view) :
    outcome Int :=
  match v.substr pos1 (some count1) with
  | .returns s => .returns (s.compare str)
  | .throws_out_of_range => .throws_out_of_range
  | .terminate => .terminate

/-- Library `compare(pos1, count1, str, pos2, count2)`:
`substr(pos1, count1).compare(str.substr(pos2, count2))`. -/
def compare_sub_sub (v : basic_string_view) (pos1 count1 : Nat) (str : basic_string_view)
    (pos2 count2 : Nat) : outcome Int :=
  match v.substr pos1 (some count1) with
  | .returns s =>
    match str.substr pos2 (some count2) with
    | .returns t => .returns (s.compare t)
    | .throws_out_of_range => .throws_out_of_range
    | .terminate => .terminate
  | .throws_out_of_range => .throws_out_of_range
  | .terminate => .terminate

/-- Library `compare(const T *s)`: `compare(basic_string_view(s))`; `none` when `s` has no
terminator (undefined behaviour). -/
def compare_cstr (v : basic_string_view) (s : const_pointer) : Option Int :=
  (from_pointer s).map (fun str => v.compare str)

/-- Library `compare(pos1, count1, const T *s)`: `substr(pos1, count1).compare(basic_string_view(s))`. -/
def compare_sub_cstr (v : basic_string_view) (pos1 count1 : Nat) (s : const_pointer) :
    Option (outcome Int) :=
  (from_pointer s).map (fun str => v.compare_sub pos1 count1 str)

/-- Library `compare(pos1, count1, const T *s, count2)`:
`substr(pos1, count1).compare(basic_string_view(s, count2))`. -/
def compare_sub_ptr (v : basic_string_view) (pos1 count1 : Nat) (s : const_pointer)
    (count2 : Nat) : outcome Int :=
  v.compare_sub pos1 count1 (from_pointer_len s count2)

end basic_string_view

/-- The comparison category `std::strong_ordering` of `operator<=>`. -/
inductive strong_ordering where
  | less : strong_ordering
  | equal : strong_ordering
  | greater : strong_ordering
deriving DecidableEq, Repr

namespace basic_string_view

/-- Library `operator<=>(basic_string_view x, basic_string_view y)`: `x.compare(y) <=> 0`. -/
def three_way (x y : basic_string_view) : strong_ordering :=
  if x.compare y < 0 then .less else if x.compare y = 0 then .equal else .greater

/-- Library `operator==(basic_string_view x, basic_string_view y)`:
`x.size() == y.size() && x.compare(y) == 0`. -/
def equal (x y : basic_string_view) : Bool :=
  x.size_ == y.size_ && x.compare y == 0

/-- Library `starts_with(basic_string_view x)`: with `rlen = min(size(), x.size())`,
`basic_string_view(data(), rlen) == x`. -/
def starts_with (v x : basic_string_view) : Bool :=
  equal ⟨v.data_, min v.size_ x.size_⟩ x

/-- Library `starts_with(T x)`: `!empty() && traits::eq(front(), x)`. -/
def starts_with_char (v : basic_string_view) (ch : Nat) : Bool :=
  !(v.size_ == 0) && v.data_.read 0 == some ch

/-- Library `starts_with(const T *x)`: `starts_with(basic_string_view(x))`; `none` when `x`
has no terminator (undefined behaviour). -/
def starts_with_cstr (v : basic_string_view) (s : const_pointer) : Option Bool :=
  (from_pointer s).map (fun x => v.starts_with x)

/-- Library `ends_with(basic_string_view x)`: with `rlen = min(size(), x.size())`,
`basic_string_view(data() + (size() - rlen), rlen) == x`. -/
def ends_with (v x : basic_string_view) : Bool :=
  equal ⟨v.data_.advance (v.size_ - min v.size_ x.size_), min v.size_ x.size_⟩ x

/-- Library `ends_with(T x)`: `!empty() && traits::eq(back(), x)`. -/
def ends_with_char (v : basic_string_view) (ch : Nat) : Bool :=
  !(v.size_ == 0) && v.data_.read (v.size_ - 1) == some ch

/-- Library `ends_with(const T *x)`: `ends_with(basic_string_view(x))`. -/
def ends_with_cstr (v : basic_string_view) (s : const_pointer) : Option Bool :=
  (from_pointer s).map (fun x => v.ends_with x)

/-- Library `contains(basic_string_view x)`: `find(x) != npos`. -/
def contains (v x : basic_string_view) : Bool :=
  v.find x none != SIZE_MAX

/-- Library `contains(T x)`: `find(x) != npos`. -/
def contains_char (v : basic_string_view) (ch : Nat) : Bool :=
  v.find_char ch none != SIZE_MAX

/-- Library `contains(const T *x)`: `find(x) != npos`. -/
def contains_cstr (v : basic_string_view) (s : const_pointer) : Option Bool :=
  (v.find_cstr s none).map (fun r => r != SIZE_MAX)

/-- Library `traits::copy(s, p, n)` into the destination array `dest` (the elements from the
destination pointer on): the array afterwards. Writing past its end, or reading `n > 0`
elements that are not readable, is undefined behaviour (`none`). -/
def traits_copy (dest : List Nat) (p : const_pointer) (n : Nat) : Option (List Nat) :=
  if n ≤ dest.length ∧ (n = 0 ∨ p.readable n) then some (p.range n ++ dest.drop n) else none

/-- Library `copy(T *s, size_type n, size_type pos)`: throws when `pos > size()`; else copies
`rlen = min(n, size() - pos)` elements from `data() + pos` and returns `rlen`. The result
is the returned count and the destination array afterwards. -/
def copy (v : basic_string_view) (dest : List Nat) (n pos : Nat) :
    outcome (Option (Nat × List Nat)) :=
  if pos > v.size_ then .throws_out_of_range
  else .returns ((traits_copy dest (v.data_.advance pos) (min n (v.size_ - pos))).map
    (fun d => (min n (v.size_ - pos), d)))

/-- Library `traits::assign(s[i], p[i])` for `i = 0, ..., n - 1` in turn, `s` and `p` being
the elements number `s` and `p` of one array: the array afterwards. -/
def assign_each (arr : List Nat) (s p : Nat) : Nat → List Nat
  | 0 => arr
  | n + 1 => assign_each (arr.set s (arr.getD p 0)) (s + 1) (p + 1) n

/-- Library `traits::copy(s, p, n)` with `s` and `p` pointing into one array: both ranges
must lie in the array and `p` must not be in `[s, s + n)`, else the behaviour is
undefined (`none`); the effect is `assign(s[i], p[i])` for each `i` in turn. -/
def traits_copy_within (arr : List Nat) (s p n : Nat) : Option (List Nat) :=
  if s + n ≤ arr.length ∧ (n = 0 ∨ p + n ≤ arr.length) ∧ ¬ (s ≤ p ∧ p < s + n) then
    some (assign_each arr s p n)
  else none

/-- Library `copy(T *s, size_type n, size_type pos)` when `s` points to element `d` of the
array that `data()` points into. The result is the returned count and that array
afterwards. -/
def copy_within (v : basic_string_view) (d n pos : Nat) : outcome (Option (Nat × List Nat)) :=
  if pos > v.size_ then .throws_out_of_range
  else match v.data_ with
    | .null => .returns none
    | .into arr off =>
      .returns ((traits_copy_within arr d (off + pos) (min n (v.size_ - pos))).map
        (fun a => (min n (v.size_ - pos), a)))

/-- Library `std::hash<std::basic_string_view<T>>`: an unspecified function of the viewed
characters (the hash of a view equals the hash of the string with the same characters);
the function on character sequences is the parameter `h`. -/
def hash (h : List Nat → Nat) (v : basic_string_view) : Nat := h v.elems

end basic_string_view

/-- The five character types the header instantiates the view for (lines 15-19). -/
inductive char_type where
  | char_ : char_type
  | wchar_t : char_type
  | char8_t : char_type
  | char16_t : char_type
  | char32_t : char_type
deriving DecidableEq, Repr

end std

namespace em

open std

/-- Source `basic_zstring_view<T>::npos` (line 56). -/
def npos : Nat := SIZE_MAX

/-- Source `basic_zstring_view<T>`: its only member is `storage` (line 53). -/
structure basic_zstring_view where
  storage : basic_string_view
deriving DecidableEq, Repr

namespace basic_zstring_view

/-- Line 60: `basic_zstring_view(const char *target) : storage(target)`. -/
def from_pointer (target : const_pointer) : Option basic_zstring_view :=
  (basic_string_view.from_pointer target).map (fun s => ⟨s⟩)

/-- Line 61: `basic_zstring_view(const std::string &target) : storage(target)`. -/
def from_string (target : basic_string) : basic_zstring_view :=
  ⟨basic_string_view.from_string target⟩

/-- Lines 63-64: the conversion to the underlying view. -/
def underlying_string_view (v : basic_zstring_view) : basic_string_view := v.storage

/-- Line 81: `operator[](i)`. -/
def index (v : basic_zstring_view) (i : Nat) : Option Nat := v.storage.index i

/-- Line 82: `at(i) const noexcept {return storage.at(i);}`. -/
def at_ (v : basic_zstring_view) (i : Nat) : outcome (Option Nat) :=
  noexcept_ (v.storage.at_ i)

/-- Line 88: `data()`. -/
def data (v : basic_zstring_view) : const_pointer := v.storage.data

/-- Line 90: `size()`. -/
def size (v : basic_zstring_view) : Nat := v.storage.size

/-- Line 101: `substr(pos) const noexcept`: `ret.storage = storage.substr(pos)`. -/
def substr (v : basic_zstring_view) (pos : Nat) : outcome basic_zstring_view :=
  noexcept_ (match v.storage.substr pos none with
    | .returns s => .returns ⟨s⟩
    | .throws_out_of_range => .throws_out_of_range
    | .terminate => .terminate)

/-- Line 102: `substr(pos, size) const noexcept`: the plain view `storage.substr(pos, size)`. -/
def substr_len (v : basic_zstring_view) (pos size : Nat) : outcome basic_string_view :=
  noexcept_ (v.storage.substr pos (some size))

/-- Line 95: `remove_prefix(n) const noexcept {return storage.remove_prefix(n);}`. The
member is `const`, so inside its body `storage` is a const object. The result is the
view after the call; `none`: the call does not compile. -/
def remove_prefix (v : basic_zstring_view) (n : Nat) : Option basic_zstring_view :=
  ( basic_string_view.remove_prefix .const_ v.storage n).map (fun s => ⟨s⟩)

/-- Line 121: `find(underlying_string_view_type v, size_type pos = 0)`. -/
def find (v : basic_zstring_view) (x : basic_string_view) (pos : Option Nat) : Nat :=
  v.storage.find x (some (pos.getD 0))

/-- Line 122: `find(T ch, size_type pos = 0)`. -/
def find_char (v : basic_zstring_view) (ch : Nat) (pos : Option Nat) : Nat :=
  v.storage.find_char ch (some (pos.getD 0))

/-- Line 124: `find(const T *s, size_type pos = 0)`. -/
def find_cstr (v : basic_zstring_view) (s : const_pointer) (pos : Option Nat) : Option Nat :=
  v.storage.find_cstr s (some (pos.getD 0))

/-- Line 126: `rfind(underlying_string_view_type v, size_type pos = 0)`. -/
def rfind (v : basic_zstring_view) (x : basic_string_view) (pos : Option Nat) : Nat :=
  v.storage.rfind x (some (pos.getD 0))

/-- Line 127: `rfind(T ch, size_type pos = 0)`. -/
def rfind_char (v : basic_zstring_view) (ch : Nat) (pos : Option Nat) : Nat :=
  v.storage.rfind_char ch (some (pos.getD 0))

/-- Line 129: `rfind(const T *s, size_type pos = 0)`. -/
def rfind_cstr (v : basic_zstring_view) (s : const_pointer) (pos : Option Nat) : Option Nat :=
  v.storage.rfind_cstr s (some (pos.getD 0))

/-- Line 136: `find_last_of(underlying_string_view_type v, size_type pos = 0)`. -/
def find_last_of (v : basic_zstring_view) (x : basic_string_view) (pos : Option Nat) : Nat :=
  v.storage.find_last_of x (some (pos.getD 0))

/-- Line 137: `find_last_of(T ch, size_type pos = 0)`. -/
def find_last_of_char (v : basic_zstring_view) (ch : Nat) (pos : Option Nat) : Nat :=
  v.storage.find_last_of_char ch (some (pos.getD 0))

/-- Line 139: `find_last_of(const T *s, size_type pos = 0)`. -/
def find_last_of_cstr (v : basic_zstring_view) (s : const_pointer) (pos : Option Nat) :
    Option Nat :=
  v.storage.find_last_of_cstr s (some (pos.getD 0))

/-- Line 146: `find_last_not_of(underlying_string_view_type v, size_type pos = 0)`. -/
def find_last_not_of (v : basic_zstring_view) (x : basic_string_view) (pos : Option Nat) :
    Nat :=
  v.storage.find_last_not_of x (some (pos.getD 0))

/-- Line 147: `find_last_not_of(T ch, size_type pos = 0)`. -/
def find_last_not_of_char (v : basic_zstring_view) (ch : Nat) (pos : Option Nat) : Nat :=
  v.storage.find_last_not_of_char ch (some (pos.getD 0))

/-- Line 149: `find_last_not_of(const T *s, size_type pos = 0)`. -/
def find_last_not_of_cstr (v : basic_zstring_view) (s : const_pointer) (pos : Option Nat) :
    Option Nat :=
  v.storage.find_last_not_of_cstr s (some (pos.getD 0))

/-- Line 104: `compare(underlying_string_view_type v)`. -/
def compare (v : basic_zstring_view) (w : basic_string_view) : Int := v.storage.compare w

/-- Line 105: `compare(pos1, count1, v) const noexcept`. -/
def compare_sub (v : basic_zstring_view) (pos1 count1 : Nat) (w : basic_string_view) :
    outcome Int :=
  noexcept_ (v.storage.compare_sub pos1 count1 w)

/-- Line 106: `compare(pos1, count1, v, pos2, count2) const noexcept`. -/
def compare_sub_sub (v : basic_zstring_view) (pos1 count1 : Nat) (w : basic_string_view)
    (pos2 count2 : Nat) : outcome Int :=
  noexcept_ (v.storage.compare_sub_sub pos1 count1 w pos2 count2)

/-- Line 107: `compare(const T *s)`. -/
def compare_cstr (v : basic_zstring_view) (s : const_pointer) : Option Int :=
  v.storage.compare_cstr s

/-- Line 108: `compare(pos1, count1, const T *s) const noexcept`. -/
def compare_sub_cstr (v : basic_zstring_view) (pos1 count1 : Nat) (s : const_pointer) :
    Option (outcome Int) :=
  (v.storage.compare_sub_cstr pos1 count1 s).map noexcept_

/-- Line 109: `compare(pos1, count1, const T *s, count2) const noexcept`. -/
def compare_sub_ptr (v : basic_zstring_view) (pos1 count1 : Nat) (s : const_pointer)
    (count2 : Nat) : outcome Int :=
  noexcept_ (v.storage.compare_sub_ptr pos1 count1 s count2)

/-- Line 70: the defaulted `operator<=>` compares the members in order, that is `storage`. -/
def three_way (a b : basic_zstring_view) : strong_ordering :=
  basic_string_view.three_way a.storage b.storage

/-- The `operator==` that the defaulted `operator<=>` of line 70 declares: member-wise
equality, that is `storage == storage`. -/
def equal (a b : basic_zstring_view) : Bool :=
  basic_string_view.equal a.storage b.storage

/-- Line 99: the member `copy(T *dest, size_type count, size_type pos = 0) const noexcept`
(`copy` itself names the copy construction below). The member is `const`: the view is
not part of what the call changes. -/
def copy_ (v : basic_zstring_view) (dest : List Nat) (count : Nat) (pos : Option Nat) :
    outcome (Option (Nat × List Nat)) :=
  noexcept_ (v.storage.copy dest count (pos.getD 0))

/-- A `T *dest` argument of `copy` (line 99 takes any): a pointer to element `d` of the
array the view points into, or a pointer to the start of an array of its own. -/
inductive dest_pointer where
  | inside (d : Nat) : dest_pointer
  | outside (arr : List Nat) : dest_pointer
deriving DecidableEq, Repr

/-- The state after a `copy` call that returns: the returned count, the elements from
`dest` on, and the view. -/
structure copy_effect where
  count : Nat
  dest : List Nat
  self : basic_zstring_view
deriving DecidableEq, Repr

/-- Line 99 with all it leaves behind. The member is `const`: the view keeps its data
pointer and its size. A destination in an array of its own leaves the viewed array as it
is; a destination inside the viewed array is written in that array, which the view
then sees. -/
def copy_to (v : basic_zstring_view) (dest : dest_pointer) (count : Nat) (pos : Option Nat) :
    outcome (Option copy_effect) :=
  match dest with
  | .outside arr =>
    match v.copy_ arr count pos with
    | .returns r => .returns (r.map (fun x => ⟨x.1, x.2, v⟩))
    | .throws_out_of_range => .throws_out_of_range
    | .terminate => .terminate
  | .inside d =>
    noexcept_ (match v.storage.copy_within d count (pos.getD 0) with
      | .returns r => .returns (r.map
          (fun x => ⟨x.1, x.2.drop d, ⟨⟨v.storage.data_.rebase x.2, v.storage.size_⟩⟩⟩))
      | .throws_out_of_range => .throws_out_of_range
      | .terminate => .terminate)

/-- Line 111: `starts_with(underlying_string_view_type sv)`. -/
def starts_with (v : basic_zstring_view) (sv : basic_string_view) : Bool :=
  v.storage.starts_with sv

/-- Line 112: `starts_with(T ch)`. -/
def starts_with_char (v : basic_zstring_view) (ch : Nat) : Bool :=
  v.storage.starts_with_char ch

/-- Line 113: `starts_with(const T *s)`. -/
def starts_with_cstr (v : basic_zstring_view) (s : const_pointer) : Option Bool :=
  v.storage.starts_with_cstr s

/-- Line 114: `ends_with(underlying_string_view_type sv)`. -/
def ends_with (v : basic_zstring_view) (sv : basic_string_view) : Bool :=
  v.storage.ends_with sv

/-- Line 115: `ends_with(T ch)`. -/
def ends_with_char (v : basic_zstring_view) (ch : Nat) : Bool :=
  v.storage.ends_with_char ch

/-- Line 116: `ends_with(const T *s)`. -/
def ends_with_cstr (v : basic_zstring_view) (s : const_pointer) : Option Bool :=
  v.storage.ends_with_cstr s

/-- Line 117: `contains(underlying_string_view_type sv)`. -/
def contains (v : basic_zstring_view) (sv : basic_string_view) : Bool :=
  v.storage.contains sv

/-- Line 118: `contains(T ch)`. -/
def contains_char (v : basic_zstring_view) (ch : Nat) : Bool :=
  v.storage.contains_char ch

/-- Line 119: `contains(const T *s)`. -/
def contains_cstr (v : basic_zstring_view) (s : const_pointer) : Option Bool :=
  v.storage.contains_cstr s

/-- Line 60 in the instantiation for the element type `T`, called with an argument of type
`const U *`. The parameter is `const char *` whatever `T` is, so the argument must be a
`const char *`, and the initialiser `storage(target)` builds a `std::basic_string_view<T>`
from that `const char *`, which exists for `T = char` only. `none`: the construction
does not compile. -/
def construct_from_pointer (T U : char_type) (target : const_pointer) :
    Option (Option basic_zstring_view) :=
  if U = .char_ ∧ T = .char_ then some (from_pointer target) else none

/-- Line 61 in the instantiation for the element type `T`, called with a
`std::basic_string<U>`. The parameter is `const std::string &` whatever `T` is, and the
initialiser `storage(target)` converts that `std::string` to a
`std::basic_string_view<T>`, which exists for `T = char` only. `none`: the construction
does not compile. -/
def construct_from_string (T U : char_type) (target : basic_string) :
    Option basic_zstring_view :=
  if U = .char_ ∧ T = .char_ then some (from_string target) else none

/-- The invariant of the type: `data()` points to at least `size() + 1` readable elements
and the element at index `size()` is zero. -/
def terminated (v : basic_zstring_view) : Prop :=
  v.data.readable (v.size + 1) ∧ v.data.read v.size = some 0

instance (v : basic_zstring_view) : Decidable v.terminated :=
  inferInstanceAs (Decidable (_ ∧ _))

/-- The implicit copy constructor and copy assignment: `storage` is copied member-wise. -/
def copy (v : basic_zstring_view) : basic_zstring_view := ⟨v.storage⟩

end basic_zstring_view

/-- The contract of a forward search: `r` is the lowest index at which `occ` holds, and `r`
is `npos` exactly when `occ` holds nowhere. -/
def lowest_or_npos (occ : Nat → Prop) (r : Nat) : Prop :=
  (r = npos ↔ ∀ i, ¬ occ i) ∧ (r ≠ npos → occ r ∧ ∀ i, i < r → ¬ occ i)

/-- The contract of a three-way comparison with result `r` of the ranges `a` (left) and
`b` (right): zero exactly when they have equal length and equal elements; else the sign
of the ordering of the first differing elements; and when one range is a strict prefix
of the other, negative if the left one is the shorter, positive if it is the longer. -/
def three_way_contract (r : Int) (a b : List Nat) : Prop :=
  (r = 0 ↔ a.length = b.length ∧ ∀ i, i < a.length → a[i]? = b[i]?) ∧
  (∀ k x y : Nat, a[k]? = some x → b[k]? = some y → (∀ i, i < k → a[i]? = b[i]?) →
    (x < y → r < 0) ∧ (y < x → 0 < r)) ∧
  (a.length < b.length → (∀ i, i < a.length → a[i]? = b[i]?) → r < 0) ∧
  (b.length < a.length → (∀ i, i < b.length → a[i]? = b[i]?) → 0 < r)

/-- Two views have the same contents: the same size and the same elements. -/
def same_contents (a b : basic_zstring_view) : Prop :=
  a.size = b.size ∧ ∀ i, i < a.size → a.index i = b.index i

/-- The elements of the sub-range `(pos, count)` of a view, clamped to the elements there are. -/
def sub_range (v : basic_string_view) (pos count : Nat) : List Nat :=
  (v.elems.drop pos).take count

/-- Lines 159-163: `operator""_zsv(str, len)`: `ret.storage = std::string_view(str, len)`. -/
def operator_zsv (str : const_pointer) (len : Nat) : basic_zstring_view :=
  ⟨basic_string_view.from_pointer_len str len⟩

/-- Lines 159-163: the five `operator""_zsv` overloads, one per character type `T`, each
`ret.storage = std::basic_string_view<T>(str, len)`. -/
def operator_zsv_of (T : char_type) (str : const_pointer) (len : Nat) : basic_zstring_view :=
  match T with
  | .char_ => ⟨basic_string_view.from_pointer_len str len⟩
  | .wchar_t => ⟨basic_string_view.from_pointer_len str len⟩
  | .char8_t => ⟨basic_string_view.from_pointer_len str len⟩
  | .char16_t => ⟨basic_string_view.from_pointer_len str len⟩
  | .char32_t => ⟨basic_string_view.from_pointer_len str len⟩

/-- Lines 175-179: `std::hash<em::zstring_view>` and its four siblings derive from the hash
of the underlying view type and add nothing: the inherited call operator takes the
underlying view, to which the argument converts (line 63). -/
def hash (h : List Nat → Nat) (z : basic_zstring_view) : Nat :=
  basic_string_view.hash h z.underlying_string_view

/-- The literal expression `"..."_zsv` with characters `c`: the compiler calls the operator
with a pointer to the literal's array (the characters followed by a zero) and the
number of characters. -/
def literal_zsv (c : List Nat) : basic_zstring_view :=
  operator_zsv (.into (c ++ [0]) 0) c.length

end em

/-! ## Lemmas on the model of memory -/

namespace std

theorem length_scan_eq_some (l : List Nat) (n : Nat) :
    length_scan l = some n ↔ l[n]? = some 0 ∧ ∀ i, i < n → l[i]? ≠ some 0 := by
  induction l generalizing n with
  | nil => simp [length_scan]
  | cons c cs ih =>
    unfold length_scan
    by_cases hc : c = 0
    · subst hc
      simp only [if_true, Option.some.injEq]
      constructor
      · intro h; subst h; simp
      · rintro ⟨_, h2⟩
        by_contra hne
        have : 0 < n := Nat.pos_of_ne_zero (fun h => hne h.symm)
        exact h2 0 this (by simp)
    · simp only [hc, if_false, Option.map_eq_some']
      constructor
      · rintro ⟨m, hm, rfl⟩
        obtain ⟨h1, h2⟩ := (ih m).1 hm
        refine ⟨by simpa using h1, ?_⟩
        intro i hi
        cases i with
        | zero => simpa using hc
        | succ j => simpa using h2 j (by omega)
      · rintro ⟨h1, h2⟩
        cases n with
        | zero => simp at h1; exact absurd h1 hc
        | succ m =>
          refine ⟨m, (ih m).2 ⟨by simpa using h1, ?_⟩, rfl⟩
          intro i hi
          simpa using h2 (i + 1) (by omega)

theorem traits_length_eq_some (p : const_pointer) (n : Nat) :
    traits_length p = some n ↔ p.read n = some 0 ∧ ∀ i, i < n → p.read i ≠ some 0 := by
  cases p with
  | null => simp [traits_length, const_pointer.read]
  | into arr off =>
    simp only [traits_length, const_pointer.read, length_scan_eq_some, List.getElem?_drop]

theorem const_pointer.read_advance (p : const_pointer) (k i : Nat) :
    (p.advance k).read i = p.read (k + i) := by
  cases p with
  | null => rfl
  | into arr off => simp [const_pointer.advance, const_pointer.read, Nat.add_assoc]

theorem const_pointer.readable_of_read {p : const_pointer} {n x : Nat}
    (h : p.read n = some x) : p.readable (n + 1) := by
  cases p with
  | null => simp [const_pointer.read] at h
  | into arr off =>
    simp only [const_pointer.read] at h
    simp only [const_pointer.readable]
    by_contra hcon
    rw [List.getElem?_eq_none (by omega)] at h
    exact absurd h (by simp)

theorem const_pointer.readable_advance {p : const_pointer} {n k : Nat}
    (h : p.readable (n + 1)) (hk : k ≤ n) : (p.advance k).readable (n - k + 1) := by
  cases p with
  | null => exact h
  | into arr off =>
    simp only [const_pointer.readable, const_pointer.advance] at h ⊢
    omega

namespace basic_string_view

theorem traits_compare_take (a b : List Nat) :
    traits_compare (a.take (min a.length b.length)) (b.take (min a.length b.length)) =
      traits_compare a b := by
  induction a generalizing b with
  | nil => simp [traits_compare]
  | cons x as ih =>
    cases b with
    | nil => simp [traits_compare]
    | cons y bs =>
      simp only [List.length_cons, Nat.succ_min_succ, List.take_succ_cons, traits_compare]
      rw [ih bs]

theorem traits_compare_eq_zero (a b : List Nat) :
    traits_compare a b = 0 ↔ ∀ i, i < a.length → i < b.length → a[i]? = b[i]? := by
  induction a generalizing b with
  | nil => simp [traits_compare]
  | cons x as ih =>
    cases b with
    | nil => simp [traits_compare]
    | cons y bs =>
      simp only [traits_compare, List.length_cons]
      by_cases h1 : x < y
      · simp only [h1, if_true]
        constructor
        · intro h; exact absurd h (by decide)
        · intro h
          have := h 0 (by omega) (by omega)
          simp at this
          omega
      · by_cases h2 : y < x
        · simp only [h1, h2, if_true, if_false]
          constructor
          · intro h; exact absurd h (by decide)
          · intro h
            have := h 0 (by omega) (by omega)
            simp at this
            omega
        · simp only [h1, h2, if_false]
          rw [ih bs]
          have hxy : x = y := by omega
          constructor
          · intro h i hi1 hi2
            cases i with
            | zero => simp [hxy]
            | succ j => simpa using h j (by omega) (by omega)
          · intro h i hi1 hi2
            simpa using h (i + 1) (by omega) (by omega)

theorem traits_compare_first_diff (a b : List Nat) (k x y : Nat) (hx : a[k]? = some x)
    (hy : b[k]? = some y) (hpre : ∀ i, i < k → a[i]? = b[i]?) :
    (x < y → traits_compare a b = -1) ∧ (y < x → traits_compare a b = 1) := by
  induction a generalizing b k with
  | nil => simp at hx
  | cons c as ih =>
    cases b with
    | nil => simp at hy
    | cons d bs =>
      cases k with
      | zero =>
        simp only [List.getElem?_cons_zero, Option.some.injEq] at hx hy
        subst hx; subst hy
        simp only [traits_compare]
        constructor
        · intro h; simp [h]
        · intro h
          have : ¬ c < d := by omega
          simp [h, this]
      | succ j =>
        have h0 := hpre 0 (by omega)
        simp only [List.getElem?_cons_zero, Option.some.injEq] at h0
        subst h0
        simp only [traits_compare, Nat.lt_irrefl, if_false]
        apply ih bs j (by simpa using hx) (by simpa using hy)
        intro i hi
        simpa using hpre (i + 1) (by omega)
theorem range_eq_take_elems (v : basic_string_view) (n : Nat) (hn : n ≤ v.size_) :
    v.data_.range n = v.elems.take n := by
  cases v with
  | mk d sz =>
    cases d with
    | null => simp [elems, const_pointer.range]
    | into arr off =>
      simp only at hn
      simp [elems, const_pointer.range, List.take_take, Nat.min_eq_left hn]

theorem substr_elems (v : basic_string_view) (pos count : Nat) :
    elems ⟨v.data_.advance pos, min count (v.size_ - pos)⟩ = (v.elems.drop pos).take count := by
  cases v with
  | mk d sz =>
    cases d with
    | null => simp [elems, const_pointer.range, const_pointer.advance]
    | into arr off =>
      simp [elems, const_pointer.range, const_pointer.advance, List.drop_take, List.take_take,
        List.drop_drop, Nat.add_comm]

theorem substr_in_range (v : basic_string_view) (pos count : Nat)
    (hv : v.size_ = 0 ∨ v.data_.readable v.size_) (hpos : pos ≤ v.size_) :
    min count (v.size_ - pos) = 0 ∨
      (v.data_.advance pos).readable (min count (v.size_ - pos)) := by
  rcases hv with h | h
  · left; omega
  · right
    cases v with
    | mk d sz =>
      cases d with
      | null => exact h
      | into arr off =>
        simp only [const_pointer.readable, const_pointer.advance] at h hpos ⊢
        omega

theorem substr_some_returns (v : basic_string_view) (pos count : Nat) (hpos : pos ≤ v.size_) :
    v.substr pos (some count) = .returns ⟨v.data_.advance pos, min count (v.size_ - pos)⟩ := by
  have : ¬ pos > v.size_ := Nat.not_lt.mpr hpos
  simp [substr, this]

theorem assign_each_length (arr : List Nat) (s p n : Nat) :
    (assign_each arr s p n).length = arr.length := by
  induction n generalizing arr s p with
  | zero => rfl
  | succ n ih =>
    unfold assign_each
    rw [ih, List.length_set]

theorem assign_each_getElem? (arr : List Nat) (s p n : Nat) (hs : s + n ≤ arr.length)
    (hp : n = 0 ∨ p + n ≤ arr.length) (hdis : s + n ≤ p ∨ p + n ≤ s) (j : Nat) :
    (assign_each arr s p n)[j]? =
      if s ≤ j ∧ j < s + n then arr[p + (j - s)]? else arr[j]? := by
  induction n generalizing arr s p with
  | zero =>
    have : ¬ (s ≤ j ∧ j < s + 0) := by omega
    rw [if_neg this]
    rfl
  | succ n ih =>
    have hp2 : p + (n + 1) ≤ arr.length := by omega
    unfold assign_each
    rw [ih (arr.set s (arr.getD p 0)) (s + 1) (p + 1) (by rw [List.length_set]; omega)
      (Or.inr (by rw [List.length_set]; omega)) (by omega)]
    have hplt : p < arr.length := by omega
    have hx : arr.getD p 0 = arr[p] := by
      rw [List.getD_eq_getElem?_getD, List.getElem?_eq_getElem hplt]
      rfl
    by_cases h1 : s + 1 ≤ j ∧ j < s + 1 + n
    · have h2 : s ≤ j ∧ j < s + (n + 1) := by omega
      rw [if_pos h1, if_pos h2]
      have hk : p + 1 + (j - (s + 1)) = p + (j - s) := by omega
      rw [hk, List.getElem?_set_ne (by omega)]
    · rw [if_neg h1]
      by_cases h3 : j = s
      · subst h3
        have h2 : j ≤ j ∧ j < j + (n + 1) := by omega
        rw [if_pos h2, List.getElem?_set_self (by omega), hx]
        simp only [Nat.sub_self, Nat.add_zero]
        rw [List.getElem?_eq_getElem (by omega)]
      · have h2 : ¬ (s ≤ j ∧ j < s + (n + 1)) := by omega
        rw [if_neg h2, List.getElem?_set_ne (by omega)]
theorem scan_up_some {p : Nat → Bool} {lo count i : Nat} (h : scan_up p lo count = some i) :
    lo ≤ i ∧ i < lo + count ∧ p i = true ∧ ∀ j, lo ≤ j → j < i → p j = false := by
  induction count generalizing lo with
  | zero => simp [scan_up] at h
  | succ c ih =>
    unfold scan_up at h
    by_cases hp : p lo = true
    · simp only [hp, if_true, Option.some.injEq] at h
      subst h
      exact ⟨Nat.le_refl _, by omega, hp, fun j h1 h2 => by omega⟩
    · simp only [hp] at h
      obtain ⟨h1, h2, h3, h4⟩ := ih h
      refine ⟨by omega, by omega, h3, fun j hj1 hj2 => ?_⟩
      by_cases hj : j = lo
      · subst hj; simpa using hp
      · exact h4 j (by omega) hj2

theorem scan_up_none {p : Nat → Bool} {lo count : Nat} (h : scan_up p lo count = none) :
    ∀ j, lo ≤ j → j < lo + count → p j = false := by
  induction count generalizing lo with
  | zero => intro j h1 h2; omega
  | succ c ih =>
    unfold scan_up at h
    by_cases hp : p lo = true
    · simp [hp] at h
    · simp only [hp] at h
      intro j hj1 hj2
      by_cases hj : j = lo
      · subst hj; simpa using hp
      · exact ih h j (by omega) (by omega)

theorem match_at_iff (hay needle : List Nat) (i : Nat) :
    match_at hay needle i = true ↔ ∀ j, j < needle.length → hay[i + j]? = needle[j]? := by
  simp only [match_at, beq_iff_eq]
  constructor
  · intro h j hj
    have := congrArg (fun l => l[j]?) h
    simpa [List.getElem?_take, hj, List.getElem?_drop] using this
  · intro h
    apply List.ext_getElem?
    intro j
    by_cases hj : j < needle.length
    · rw [List.getElem?_take_of_lt hj, List.getElem?_drop]
      exact h j hj
    · rw [List.getElem?_take_eq_none (by omega), List.getElem?_eq_none (by omega)]

theorem elems_length {v : basic_string_view} (hr : v.size_ = 0 ∨ v.data_.readable v.size_) :
    v.elems.length = v.size_ := by
  cases v with
  | mk d n =>
    cases d with
    | null =>
      rcases hr with h | h
      · simpa [elems, const_pointer.range] using h.symm
      · exact absurd h (by simp [const_pointer.readable])
    | into arr off =>
      simp only [elems, const_pointer.range, List.length_take, List.length_drop]
      rcases hr with h | h
      · simp only at h; omega
      · simp only [const_pointer.readable] at h; omega

theorem elems_getElem? {v : basic_string_view} (hr : v.size_ = 0 ∨ v.data_.readable v.size_)
    {i : Nat} (hi : i < v.size_) : v.elems[i]? = v.index i := by
  cases v with
  | mk d n =>
    cases d with
    | null =>
      rcases hr with h | h
      · simp only at h hi; omega
      · exact absurd h (by simp [const_pointer.readable])
    | into arr off =>
      simp only at hi
      simp [elems, const_pointer.range, index, const_pointer.read, List.getElem?_take, hi,
        List.getElem?_drop]

/-- The forward search from position 0 finds the lowest occurrence of the needle. -/
theorem find_elems_lowest (v : basic_string_view) (hv : v.valid) (x : List Nat) :
    (find_elems v x 0 = SIZE_MAX ↔
        ∀ i, ¬ (i + x.length ≤ v.size_ ∧ ∀ j, j < x.length → v.index (i + j) = x[j]?)) ∧
      (find_elems v x 0 ≠ SIZE_MAX →
        (find_elems v x 0 + x.length ≤ v.size_ ∧
          ∀ j, j < x.length → v.index (find_elems v x 0 + j) = x[j]?) ∧
        ∀ i, i < find_elems v x 0 →
          ¬ (i + x.length ≤ v.size_ ∧ ∀ j, j < x.length → v.index (i + j) = x[j]?)) := by
  have hlen := elems_length hv.1
  have hocc : ∀ i, i + x.length ≤ v.size_ →
      (match_at v.elems x i = true ↔ ∀ j, j < x.length → v.index (i + j) = x[j]?) := by
    intro i hi
    rw [match_at_iff]
    constructor
    · intro h j hj
      rw [← elems_getElem? hv.1 (by omega)]
      exact h j hj
    · intro h j hj
      rw [elems_getElem? hv.1 (by omega)]
      exact h j hj
  unfold find_elems
  cases hscan : scan_up (match_at v.elems x) 0 (v.size_ + 1 - x.length - 0) with
  | none =>
    have hnone := scan_up_none hscan
    have hno : ∀ i, ¬ (i + x.length ≤ v.size_ ∧
        ∀ j, j < x.length → v.index (i + j) = x[j]?) := by
      rintro i ⟨hi, hm⟩
      have := hnone i (Nat.zero_le _) (by omega)
      rw [(hocc i hi).2 hm] at this
      exact absurd this (by decide)
    simp only [Option.getD_none, true_iff, ne_eq, not_true_eq_false, false_implies, and_true]
    exact hno
  | some r =>
    obtain ⟨_, h2, h3, h4⟩ := scan_up_some hscan
    have hfit : r + x.length ≤ v.size_ := by omega
    have hr : r ≠ SIZE_MAX := by
      intro hr
      have hx : x.length = 0 := by
        have := hv.2
        omega
      have h0 : match_at v.elems x 0 = true := by
        rw [hocc 0 (by omega)]
        intro j hj; omega
      have : r = 0 := by
        by_contra hne
        have := h4 0 (Nat.le_refl _) (by omega)
        rw [h0] at this
        exact absurd this (by decide)
      rw [this] at hr
      exact absurd hr (by decide)
    have hoccr := (hocc r hfit).1 h3
    simp only [Option.getD_some, hr, false_iff, not_forall, not_not, ne_eq, not_false_eq_true,
      true_implies]
    refine ⟨⟨r, hfit, hoccr⟩, ⟨hfit, hoccr⟩, ?_⟩
    rintro i hi ⟨hi2, hm⟩
    have := h4 i (Nat.zero_le _) hi
    rw [(hocc i hi2).2 hm] at this
    exact absurd this (by decide)

end basic_string_view

end std

namespace em

open std

/-- C1: a view built from a raw pointer `p` to a null-terminated buffer whose first zero
is at index `n` exists, has `size() == n`, data pointer `p`, element `i` equal to `p[i]`
for every `i < n`, and `data()[size()] == 0`. -/
theorem from_pointer_scans_to_terminator (p : const_pointer) (n : Nat)
    (hz : p.read n = some 0) (hnz : ∀ i, i < n → p.read i ≠ some 0) :
    ∃ v, basic_zstring_view.from_pointer p = some v ∧ v.size = n ∧ v.data = p ∧
      (∀ i, i < n → v.index i = p.read i ∧ (v.index i).isSome) ∧
      v.data.read v.size = some 0 := by
  have hlen : traits_length p = some n := (traits_length_eq_some p n).2 ⟨hz, hnz⟩
  refine ⟨⟨⟨p, n⟩⟩, ?_, rfl, rfl, ?_, hz⟩
  · simp [basic_zstring_view.from_pointer, basic_string_view.from_pointer, hlen]
  · intro i hi
    refine ⟨rfl, ?_⟩
    cases p with
    | null => simp [const_pointer.read] at hz
    | into arr off =>
      simp only [basic_zstring_view.index, basic_string_view.index, const_pointer.read] at hz ⊢
      have : off + n < arr.length := by
        by_contra hcon
        rw [List.getElem?_eq_none (by omega)] at hz
        exact absurd hz (by simp)
      rw [List.getElem?_eq_getElem (by omega)]
      rfl

/-- Witness for C1: the buffer `a b \0 c \0`. -/
theorem from_pointer_scans_to_terminator_witness :
    ∃ v, basic_zstring_view.from_pointer (.into [97, 98, 0, 99, 0] 0) = some v ∧ v.size = 2 ∧
      v.data = .into [97, 98, 0, 99, 0] 0 ∧
      (∀ i, i < 2 → v.index i = (const_pointer.into [97, 98, 0, 99, 0] 0).read i ∧
        (v.index i).isSome) ∧
      v.data.read v.size = some 0 :=
  from_pointer_scans_to_terminator (.into [97, 98, 0, 99, 0] 0) 2 (by decide) (by decide)

/-- The general statement behind `substr(pos)`: it returns, and the result starts `k`
elements further with `size() - k` elements. -/
theorem substr_returns (v : basic_zstring_view) (k : Nat) (hk : k ≤ v.size)
    (hsz : v.size ≤ SIZE_MAX) :
    v.substr k = .returns ⟨⟨v.storage.data_.advance k, v.storage.size_ - k⟩⟩ := by
  have hk2 : ¬ k > v.storage.size_ := Nat.not_lt.mpr hk
  have hmin : min SIZE_MAX (v.storage.size_ - k) = v.storage.size_ - k :=
    Nat.min_eq_right (Nat.le_trans (Nat.sub_le _ _) hsz)
  simp [basic_zstring_view.substr, basic_string_view.substr, hk2, hmin, noexcept_]

/-- C2: for a view `v` with a zero at index `size()` (`size()` being a `size_type` value) and
`k <= size()`, `v.substr(k)` returns a terminated-type view `w` of size `v.size() - k` whose
element `i` is `v[k + i]` and whose `data()[size()]` is zero. -/
theorem substr_keeps_terminator (v : basic_zstring_view) (k : Nat)
    (hterm : v.data.read v.size = some 0) (hk : k ≤ v.size) (hsz : v.size ≤ SIZE_MAX) :
    ∃ w : basic_zstring_view, v.substr k = .returns w ∧ w.size = v.size - k ∧
      (∀ i, i < v.size - k → w.index i = v.index (k + i)) ∧
      w.data.read w.size = some 0 := by
  refine ⟨_, substr_returns v k hk hsz, rfl, fun i _ => ?_, ?_⟩
  · exact const_pointer.read_advance _ k i
  · show (v.storage.data_.advance k).read (v.storage.size_ - k) = some 0
    rw [const_pointer.read_advance]
    have : k + (v.storage.size_ - k) = v.storage.size_ := Nat.add_sub_cancel' hk
    rw [this]
    exact hterm

/-- Witness for C2: `"abc"_zsv.substr(1)`. -/
theorem substr_keeps_terminator_witness :
    ∃ w : basic_zstring_view, (literal_zsv [97, 98, 99]).substr 1 = .returns w ∧
      w.size = (literal_zsv [97, 98, 99]).size - 1 ∧
      (∀ i, i < (literal_zsv [97, 98, 99]).size - 1 →
        w.index i = (literal_zsv [97, 98, 99]).index (1 + i)) ∧
      w.data.read w.size = some 0 :=
  substr_keeps_terminator (literal_zsv [97, 98, 99]) 1 (by decide) (by decide) (by decide)

theorem terminated_of_read {v : basic_zstring_view} (h : v.data.read v.size = some 0) :
    v.terminated :=
  ⟨const_pointer.readable_of_read h, h⟩

theorem terminated_after_string (c : List Nat) :
    basic_zstring_view.terminated ⟨⟨.into (c ++ [0]) 0, c.length⟩⟩ := by
  apply terminated_of_read
  simp [basic_zstring_view.data, basic_zstring_view.size, basic_string_view.data,
    basic_string_view.size, const_pointer.read]

/-- C5: for `pos <= size()` and every `len`, `v.substr(pos, len)` returns a plain view of
size `min(len, size() - pos)` whose element `i` is `v[pos + i]`. -/
theorem substr_len_is_slice (v : basic_zstring_view) (pos len : Nat) (hpos : pos ≤ v.size) :
    ∃ s : basic_string_view, v.substr_len pos len = .returns s ∧
      s.size = min len (v.size - pos) ∧
      (∀ i, i < min len (v.size - pos) → s.index i = v.index (pos + i)) := by
  have hk2 : ¬ pos > v.storage.size_ := Nat.not_lt.mpr hpos
  refine ⟨⟨v.storage.data_.advance pos, min len (v.storage.size_ - pos)⟩, ?_, rfl, ?_⟩
  · simp [basic_zstring_view.substr_len, basic_string_view.substr, hk2, noexcept_]
  · intro i _
    exact const_pointer.read_advance _ pos i

/-- Witness for C5: `"abcd"_zsv.substr(1, 2)`. -/
theorem substr_len_is_slice_witness :
    ∃ s : basic_string_view, (literal_zsv [97, 98, 99, 100]).substr_len 1 2 = .returns s ∧
      s.size = min 2 ((literal_zsv [97, 98, 99, 100]).size - 1) ∧
      (∀ i, i < min 2 ((literal_zsv [97, 98, 99, 100]).size - 1) →
        s.index i = (literal_zsv [97, 98, 99, 100]).index (1 + i)) :=
  substr_len_is_slice (literal_zsv [97, 98, 99, 100]) 1 2 (by decide)

/-- C4 (evaluation of the code): `remove_prefix` is declared `const` (line 95) and calls the
non-const `storage.remove_prefix(n)`, so no call of it compiles, whatever the view and
`n`; on a non-const `std::string_view` the same call would shrink `"abc"` to size 2 with
the data pointer advanced by 1. -/
theorem remove_prefix_is_ill_formed :
    (∀ (v : basic_zstring_view) (n : Nat), ( basic_zstring_view.remove_prefix v n) = none) ∧
      ( basic_zstring_view.remove_prefix (literal_zsv [97, 98, 99]) 1) = none ∧
      ( basic_string_view.remove_prefix .non_const (literal_zsv [97, 98, 99]).storage 1) =
        some ⟨.into [97, 98, 99, 0] 1, 2⟩ :=
  ⟨fun _ _ => rfl, rfl, rfl⟩

/-- C7 (evaluation of the code): with the position omitted the wrappers pass their own
default `pos = 0` (lines 126-149), where the underlying view defaults to `npos`. On
`"aba"_zsv` the last `a` is at index 2 and the last non-`a` at index 1, which is what the
underlying view answers; the wrappers answer 0, 0 and `npos`. -/
theorem backward_search_default_pos_differs :
    (literal_zsv [97, 98, 97]).rfind_char 97 none = 0 ∧
      (literal_zsv [97, 98, 97]).storage.rfind_char 97 none = 2 ∧
      (literal_zsv [97, 98, 97]).find_last_of_char 97 none = 0 ∧
      (literal_zsv [97, 98, 97]).storage.find_last_of_char 97 none = 2 ∧
      (literal_zsv [97, 98, 97]).find_last_not_of_char 97 none = npos ∧
      (literal_zsv [97, 98, 97]).storage.find_last_not_of_char 97 none = 1 ∧
      (literal_zsv [97, 98, 97]).rfind (literal_zsv [97]).storage none = 0 ∧
      (literal_zsv [97, 98, 97]).storage.rfind (literal_zsv [97]).storage none = 2 ∧
      (literal_zsv [97, 98, 97]).rfind_cstr (.into [97, 0] 0) none = some 0 ∧
      (literal_zsv [97, 98, 97]).storage.rfind_cstr (.into [97, 0] 0) none = some 2 := by
  decide

theorem const_pointer_readable_mono {p : const_pointer} {n m : Nat} (h : p.readable n)
    (hm : m ≤ n) : p.readable m := by
  cases p with
  | null => exact h
  | into arr off =>
    simp only [const_pointer.readable] at h ⊢
    omega

/-- The forward search of `v` for the elements of the view `x`, from position 0. -/
theorem find_view_lowest (v x : basic_string_view) (hv : v.valid)
    (hx : x.size_ = 0 ∨ x.data_.readable x.size_) :
    lowest_or_npos
      (fun i => i + x.size_ ≤ v.size_ ∧ ∀ j, j < x.size_ → v.index (i + j) = x.index j)
      (basic_string_view.find_elems v x.elems 0) := by
  have hxl := basic_string_view.elems_length hx
  have key : ∀ i, (i + x.elems.length ≤ v.size_ ∧
      ∀ j, j < x.elems.length → v.index (i + j) = x.elems[j]?) ↔
      (i + x.size_ ≤ v.size_ ∧ ∀ j, j < x.size_ → v.index (i + j) = x.index j) := by
    intro i
    rw [hxl]
    constructor
    · rintro ⟨h1, h2⟩
      exact ⟨h1, fun j hj => by rw [h2 j hj, basic_string_view.elems_getElem? hx hj]⟩
    · rintro ⟨h1, h2⟩
      exact ⟨h1, fun j hj => by rw [h2 j hj, basic_string_view.elems_getElem? hx hj]⟩
  obtain ⟨h1, h2⟩ := basic_string_view.find_elems_lowest v hv x.elems
  refine ⟨?_, ?_⟩
  · rw [show npos = SIZE_MAX from rfl, h1]
    exact forall_congr' (fun i => not_congr (key i))
  · intro hne
    obtain ⟨h3, h4⟩ := h2 hne
    exact ⟨(key _).1 h3, fun i hi hocc => h4 i hi ((key i).2 hocc)⟩

/-- C6: `v.find(x)`, with the position omitted, returns the lowest index at which `x` occurs
in `v` (its elements equal `v[i], v[i+1], ...` and fit inside `v`) and returns `npos` exactly
when there is no such index, for `x` a single element, a view, and a raw null-terminated
buffer (whose elements are those before its first zero). -/
theorem find_returns_lowest_occurrence (v : basic_zstring_view) (hv : v.storage.valid) :
    (∀ ch : Nat,
      lowest_or_npos (fun i => i < v.size ∧ v.index i = some ch) (v.find_char ch none)) ∧
    (∀ x : basic_string_view, x.valid →
      lowest_or_npos
        (fun i => i + x.size ≤ v.size ∧ ∀ j, j < x.size → v.index (i + j) = x.index j)
        (v.find x none)) ∧
    (∀ (s : const_pointer) (n : Nat), s.read n = some 0 → (∀ j, j < n → s.read j ≠ some 0) →
      ∃ r, v.find_cstr s none = some r ∧
        lowest_or_npos
          (fun i => i + n ≤ v.size ∧ ∀ j, j < n → v.index (i + j) = s.read j) r) := by
  refine ⟨?_, ?_, ?_⟩
  · intro ch
    have hx : (1 : Nat) = 0 ∨ (const_pointer.into [ch] 0).readable 1 :=
      Or.inr (by simp [const_pointer.readable])
    have h := find_view_lowest v.storage ⟨.into [ch] 0, 1⟩ hv hx
    have key : ∀ i, (i + 1 ≤ v.storage.size_ ∧ ∀ j, j < 1 →
        v.storage.index (i + j) = basic_string_view.index ⟨.into [ch] 0, 1⟩ j) ↔
        (i < v.size ∧ v.index i = some ch) := by
      intro i
      constructor
      · rintro ⟨h1, h2⟩
        exact ⟨h1, by simpa [basic_string_view.index, const_pointer.read] using h2 0 (by omega)⟩
      · rintro ⟨h1, h2⟩
        refine ⟨h1, fun j hj => ?_⟩
        have : j = 0 := by omega
        subst this
        simpa [basic_string_view.index, const_pointer.read] using h2
    obtain ⟨h1, h2⟩ := h
    refine ⟨?_, ?_⟩
    · exact h1.trans (forall_congr' (fun i => not_congr (key i)))
    · intro hne
      obtain ⟨h3, h4⟩ := h2 hne
      exact ⟨(key _).1 h3, fun i hi hocc => h4 i hi ((key i).2 hocc)⟩
  · intro x hx
    exact find_view_lowest v.storage x hv hx.1
  · intro s n hz hnz
    have hlen : traits_length s = some n := (traits_length_eq_some s n).2 ⟨hz, hnz⟩
    refine ⟨basic_string_view.find_elems v.storage (basic_string_view.elems ⟨s, n⟩) 0, ?_, ?_⟩
    · simp [basic_zstring_view.find_cstr, basic_string_view.find_cstr,
        basic_string_view.from_pointer, hlen, basic_string_view.find]
    · exact find_view_lowest v.storage ⟨s, n⟩ hv
        (Or.inr (const_pointer_readable_mono (const_pointer.readable_of_read hz)
          (Nat.le_succ n)))

/-- Witness for C6: searches in `"abcab"_zsv`. -/
theorem find_returns_lowest_occurrence_witness :
    (literal_zsv [97, 98, 99, 97, 98]).storage.valid ∧
    (literal_zsv [97, 98, 99, 97, 98]).find_char 98 none = 1 ∧
    (literal_zsv [97, 98, 99, 97, 98]).find_char 100 none = npos ∧
    (literal_zsv [97, 98, 99, 97, 98]).find (literal_zsv [99, 97]).storage none = 2 ∧
    lowest_or_npos
      (fun i => i < (literal_zsv [97, 98, 99, 97, 98]).size ∧
        (literal_zsv [97, 98, 99, 97, 98]).index i = some 98)
      ((literal_zsv [97, 98, 99, 97, 98]).find_char 98 none) :=
  ⟨by decide, by decide, by decide, by decide,
    (find_returns_lowest_occurrence (literal_zsv [97, 98, 99, 97, 98]) (by decide)).1 98⟩

/-- The comparison of two views over valid ranges meets the three-way contract on their
elements. -/
theorem compare_contract (x y : basic_string_view)
    (hx : x.size_ = 0 ∨ x.data_.readable x.size_)
    (hy : y.size_ = 0 ∨ y.data_.readable y.size_) :
    three_way_contract (x.compare y) x.elems y.elems := by
  have hxl := basic_string_view.elems_length hx
  have hyl := basic_string_view.elems_length hy
  have htc : basic_string_view.traits_compare (x.data_.range (min x.size_ y.size_))
      (y.data_.range (min x.size_ y.size_)) =
      basic_string_view.traits_compare x.elems y.elems := by
    rw [basic_string_view.range_eq_take_elems x _ (Nat.min_le_left _ _),
      basic_string_view.range_eq_take_elems y _ (Nat.min_le_right _ _)]
    rw [← hxl, ← hyl]
    exact basic_string_view.traits_compare_take _ _
  have hzero := basic_string_view.traits_compare_eq_zero x.elems y.elems
  have hdiff := basic_string_view.traits_compare_first_diff x.elems y.elems
  simp only [basic_string_view.compare, htc]
  rw [← hxl, ← hyl]
  generalize basic_string_view.traits_compare x.elems y.elems = t at hzero hdiff
  generalize x.elems = a at hzero hdiff
  generalize y.elems = b at hzero hdiff
  refine ⟨?_, ?_, ?_, ?_⟩
  · constructor
    · intro h
      by_cases ht : t = 0
      · simp only [ht, ne_eq, not_true_eq_false, if_false] at h
        have hlen : a.length = b.length := by
          by_contra hne
          (split_ifs at h with h1; omega)
        exact ⟨hlen, fun i hi => hzero.1 ht i hi (by omega)⟩
      · simp only [ne_eq, ht, not_false_eq_true, if_true] at h
    · rintro ⟨hlen, hel⟩
      have ht : t = 0 := hzero.2 (fun i hi _ => hel i hi)
      simp [ht, hlen]
  · intro k u w hu hw hpre
    obtain ⟨h1, h2⟩ := hdiff k u w hu hw hpre
    constructor
    · intro huw
      simp [h1 huw]
    · intro hwu
      simp [h2 hwu]
  · intro hlen hel
    have ht : t = 0 := hzero.2 (fun i hi _ => hel i hi)
    simp [ht, hlen]
  · intro hlen hel
    have ht : t = 0 := hzero.2 (fun i _ hi => hel i hi)
    have h1 : ¬ a.length < b.length := by omega
    have h2 : ¬ a.length = b.length := by omega
    simp [ht, h1, h2]

theorem compare_sub_returns (v : basic_string_view) (pos1 count1 : Nat) (w : basic_string_view)
    (hpos : pos1 ≤ v.size_) :
    noexcept_ (v.compare_sub pos1 count1 w) =
      .returns (basic_string_view.compare ⟨v.data_.advance pos1, min count1 (v.size_ - pos1)⟩ w) := by
  simp [basic_string_view.compare_sub, basic_string_view.substr_some_returns v pos1 count1 hpos,
    noexcept_]

theorem compare_sub_contract (v : basic_string_view) (pos1 count1 : Nat) (w : basic_string_view)
    (hv : v.size_ = 0 ∨ v.data_.readable v.size_) (hw : w.size_ = 0 ∨ w.data_.readable w.size_)
    (hpos : pos1 ≤ v.size_) :
    three_way_contract
      (basic_string_view.compare ⟨v.data_.advance pos1, min count1 (v.size_ - pos1)⟩ w)
      (sub_range v pos1 count1) w.elems := by
  have h := compare_contract ⟨v.data_.advance pos1, min count1 (v.size_ - pos1)⟩ w
    (basic_string_view.substr_in_range v pos1 count1 hv hpos) hw
  rw [basic_string_view.substr_elems] at h
  exact h

theorem compare_sub_past_end (v : basic_string_view) (pos1 count1 : Nat)
    (w : basic_string_view) (hpos : v.size_ < pos1) :
    noexcept_ (v.compare_sub pos1 count1 w) = .terminate := by
  have h : pos1 > v.size_ := hpos
  simp [basic_string_view.compare_sub, basic_string_view.substr, h, noexcept_]

/-- C9, as stated, fails: with a start position past the end the compared sub-range,
clamped to the elements there are, is empty, so against an empty range the claim has
`compare` return 0; `"abc"_zsv.compare(4, 1, "")` returns nothing, and neither do the
other overloads that take a position. -/
theorem compare_past_the_end_returns_nothing :
    sub_range (literal_zsv [97, 98, 99]).storage 4 1 = [] ∧
      (literal_zsv []).storage.elems = [] ∧
      three_way_contract 0 (sub_range (literal_zsv [97, 98, 99]).storage 4 1)
        (literal_zsv []).storage.elems ∧
      (literal_zsv [97, 98, 99]).compare_sub 4 1 (literal_zsv []).storage ≠ .returns 0 ∧
      (¬ ∃ r : Int,
        (literal_zsv [97, 98, 99]).compare_sub 4 1 (literal_zsv []).storage = .returns r) ∧
      (¬ ∃ r : Int, (literal_zsv [97, 98, 99]).compare_sub_sub 0 3 (literal_zsv [97]).storage
        2 1 = .returns r) ∧
      (¬ ∃ r : Int,
        (literal_zsv [97, 98, 99]).compare_sub_ptr 4 1 (.into [97] 0) 0 = .returns r) ∧
      (¬ ∃ r : Int, (literal_zsv [97, 98, 99]).compare_sub_cstr 4 1 (.into [0] 0) =
        some (.returns r)) := by
  refine ⟨by decide, by decide, ?_, by decide, ?_, ?_, ?_, ?_⟩
  · refine ⟨?_, ?_, ?_, ?_⟩
    · simp [sub_range, basic_string_view.elems, literal_zsv, operator_zsv,
        basic_string_view.from_pointer_len, const_pointer.range]
    · intro k x y hx
      simp [sub_range, basic_string_view.elems, literal_zsv, operator_zsv,
        basic_string_view.from_pointer_len, const_pointer.range] at hx
    · intro h
      simp [sub_range, basic_string_view.elems, literal_zsv, operator_zsv,
        basic_string_view.from_pointer_len, const_pointer.range] at h
    · intro h
      simp [sub_range, basic_string_view.elems, literal_zsv, operator_zsv,
        basic_string_view.from_pointer_len, const_pointer.range] at h
  · rintro ⟨r, hr⟩
    have h : (literal_zsv [97, 98, 99]).compare_sub 4 1 (literal_zsv []).storage =
        .terminate := by decide
    rw [h] at hr
    exact absurd hr (by simp)
  · rintro ⟨r, hr⟩
    have h : (literal_zsv [97, 98, 99]).compare_sub_sub 0 3 (literal_zsv [97]).storage 2 1 =
        .terminate := by decide
    rw [h] at hr
    exact absurd hr (by simp)
  · rintro ⟨r, hr⟩
    have h : (literal_zsv [97, 98, 99]).compare_sub_ptr 4 1 (.into [97] 0) 0 =
        .terminate := by decide
    rw [h] at hr
    exact absurd hr (by simp)
  · rintro ⟨r, hr⟩
    have h : (literal_zsv [97, 98, 99]).compare_sub_cstr 4 1 (.into [0] 0) =
        some .terminate := by decide
    rw [h] at hr
    exact absurd hr (by simp)

/-- C9, amended: every overload of `compare` whose start positions are not past the end of
their views (`pos1 <= v.size()`, `pos2 <= w.size()`) returns a value that meets the
three-way contract on the two compared ranges: 0 exactly when they have equal length and
equal elements, else the sign of the ordering of the first differing elements, or
negative / positive when the left range is a strict prefix of the right one / the right
one of the left one. The compared ranges are the whole view or its `(pos1, count1)`
sub-range on the left, and a view, its `(pos2, count2)` sub-range, a null-terminated
buffer or a counted buffer on the right. With a start position past the end `compare`
returns no value. -/
theorem compare_meets_three_way_contract (v : basic_zstring_view) (hv : v.storage.valid) :
    (∀ w : basic_string_view, w.valid →
      three_way_contract (v.compare w) v.storage.elems w.elems) ∧
    (∀ (pos1 count1 : Nat) (w : basic_string_view), w.valid → pos1 ≤ v.size →
      ∃ r, v.compare_sub pos1 count1 w = .returns r ∧
        three_way_contract r (sub_range v.storage pos1 count1) w.elems) ∧
    (∀ (pos1 count1 : Nat) (w : basic_string_view) (pos2 count2 : Nat), w.valid →
      pos1 ≤ v.size → pos2 ≤ w.size →
      ∃ r, v.compare_sub_sub pos1 count1 w pos2 count2 = .returns r ∧
        three_way_contract r (sub_range v.storage pos1 count1) (sub_range w pos2 count2)) ∧
    (∀ (s : const_pointer) (n : Nat), s.read n = some 0 → (∀ j, j < n → s.read j ≠ some 0) →
      ∃ r, v.compare_cstr s = some r ∧
        three_way_contract r v.storage.elems (s.range n)) ∧
    (∀ (pos1 count1 : Nat) (s : const_pointer) (n : Nat), pos1 ≤ v.size →
      s.read n = some 0 → (∀ j, j < n → s.read j ≠ some 0) →
      ∃ r, v.compare_sub_cstr pos1 count1 s = some (.returns r) ∧
        three_way_contract r (sub_range v.storage pos1 count1) (s.range n)) ∧
    (∀ (pos1 count1 : Nat) (s : const_pointer) (count2 : Nat), pos1 ≤ v.size →
      (count2 = 0 ∨ s.readable count2) →
      ∃ r, v.compare_sub_ptr pos1 count1 s count2 = .returns r ∧
        three_way_contract r (sub_range v.storage pos1 count1) (s.range count2)) ∧
    (∀ (pos1 count1 : Nat) (w : basic_string_view), v.size < pos1 →
      ¬ ∃ r, v.compare_sub pos1 count1 w = .returns r) ∧
    (∀ (pos1 count1 : Nat) (w : basic_string_view) (pos2 count2 : Nat),
      v.size < pos1 ∨ w.size < pos2 →
      ¬ ∃ r, v.compare_sub_sub pos1 count1 w pos2 count2 = .returns r) ∧
    (∀ (pos1 count1 : Nat) (s : const_pointer), v.size < pos1 →
      ¬ ∃ r, v.compare_sub_cstr pos1 count1 s = some (.returns r)) ∧
    (∀ (pos1 count1 : Nat) (s : const_pointer) (count2 : Nat), v.size < pos1 →
      ¬ ∃ r, v.compare_sub_ptr pos1 count1 s count2 = .returns r) := by
  have hcstr : ∀ (s : const_pointer) (n : Nat), s.read n = some 0 →
      (n = 0 ∨ s.readable n) := fun s n hz =>
    Or.inr (const_pointer_readable_mono (const_pointer.readable_of_read hz) (Nat.le_succ n))
  refine ⟨?_, ?_, ?_, ?_, ?_, ?_, ?_, ?_, ?_, ?_⟩
  · intro w hw
    exact compare_contract v.storage w hv.1 hw.1
  · intro pos1 count1 w hw hpos
    exact ⟨_, compare_sub_returns v.storage pos1 count1 w hpos,
      compare_sub_contract v.storage pos1 count1 w hv.1 hw.1 hpos⟩
  · intro pos1 count1 w pos2 count2 hw hpos1 hpos2
    refine ⟨basic_string_view.compare
      ⟨v.storage.data_.advance pos1, min count1 (v.storage.size_ - pos1)⟩
      ⟨w.data_.advance pos2, min count2 (w.size_ - pos2)⟩, ?_, ?_⟩
    · simp [basic_zstring_view.compare_sub_sub, basic_string_view.compare_sub_sub,
        basic_string_view.substr_some_returns v.storage pos1 count1 hpos1,
        basic_string_view.substr_some_returns w pos2 count2 hpos2, noexcept_]
    · have h := compare_sub_contract v.storage pos1 count1
        ⟨w.data_.advance pos2, min count2 (w.size_ - pos2)⟩ hv.1
        (basic_string_view.substr_in_range w pos2 count2 hw.1 hpos2) hpos1
      rw [basic_string_view.substr_elems] at h
      exact h
  · intro s n hz hnz
    have hlen : traits_length s = some n := (traits_length_eq_some s n).2 ⟨hz, hnz⟩
    refine ⟨basic_string_view.compare v.storage ⟨s, n⟩, ?_, ?_⟩
    · simp [basic_zstring_view.compare_cstr, basic_string_view.compare_cstr,
        basic_string_view.from_pointer, hlen]
    · exact compare_contract v.storage ⟨s, n⟩ hv.1 (hcstr s n hz)
  · intro pos1 count1 s n hpos hz hnz
    have hlen : traits_length s = some n := (traits_length_eq_some s n).2 ⟨hz, hnz⟩
    refine ⟨basic_string_view.compare
      ⟨v.storage.data_.advance pos1, min count1 (v.storage.size_ - pos1)⟩ ⟨s, n⟩, ?_, ?_⟩
    · simp [basic_zstring_view.compare_sub_cstr, basic_string_view.compare_sub_cstr,
        basic_string_view.from_pointer, hlen, compare_sub_returns v.storage pos1 count1 _ hpos]
    · exact compare_sub_contract v.storage pos1 count1 ⟨s, n⟩ hv.1 (hcstr s n hz) hpos
  · intro pos1 count1 s count2 hpos hs
    exact ⟨_, compare_sub_returns v.storage pos1 count1 _ hpos,
      compare_sub_contract v.storage pos1 count1 ⟨s, count2⟩ hv.1 hs hpos⟩
  · rintro pos1 count1 w hpos ⟨r, hr⟩
    have h : v.compare_sub pos1 count1 w = .terminate :=
      compare_sub_past_end v.storage pos1 count1 w hpos
    rw [h] at hr
    exact absurd hr (by simp)
  · rintro pos1 count1 w pos2 count2 hpos ⟨r, hr⟩
    have h : v.compare_sub_sub pos1 count1 w pos2 count2 = .terminate := by
      unfold basic_zstring_view.compare_sub_sub basic_string_view.compare_sub_sub
      by_cases h1 : pos1 > v.storage.size_
      · simp [basic_string_view.substr, h1, noexcept_]
      · have h2 : pos2 > w.size_ := by
          rcases hpos with h | h
          · exact absurd h h1
          · exact h
        simp [basic_string_view.substr, h1, h2, noexcept_]
    rw [h] at hr
    exact absurd hr (by simp)
  · rintro pos1 count1 s hpos ⟨r, hr⟩
    simp only [basic_zstring_view.compare_sub_cstr, basic_string_view.compare_sub_cstr,
      Option.map_map, Option.map_eq_some', Function.comp] at hr
    obtain ⟨str, _, hstr⟩ := hr
    rw [compare_sub_past_end v.storage pos1 count1 str hpos] at hstr
    exact absurd hstr (by simp)
  · rintro pos1 count1 s count2 hpos ⟨r, hr⟩
    have h : v.compare_sub_ptr pos1 count1 s count2 = .terminate :=
      compare_sub_past_end v.storage pos1 count1 _ hpos
    rw [h] at hr
    exact absurd hr (by simp)

/-- Witness for C9: comparisons of `"abc"_zsv`. -/
theorem compare_meets_three_way_contract_witness :
    (literal_zsv [97, 98, 99]).storage.valid ∧
    (literal_zsv [97, 98, 99]).compare (literal_zsv [97, 98, 100]).storage = -1 ∧
    (literal_zsv [97, 98, 99]).compare (literal_zsv [97, 98]).storage = 1 ∧
    (literal_zsv [97, 98, 99]).compare_sub 1 2 (literal_zsv [98, 99]).storage = .returns 0 ∧
    (literal_zsv [97, 98, 99]).compare_sub_cstr 0 2 (.into [97, 98, 0] 0) =
      some (.returns 0) ∧
    three_way_contract
      ((literal_zsv [97, 98, 99]).compare (literal_zsv [97, 98, 100]).storage)
      (literal_zsv [97, 98, 99]).storage.elems (literal_zsv [97, 98, 100]).storage.elems :=
  ⟨by decide, by decide, by decide, by decide, by decide,
    (compare_meets_three_way_contract (literal_zsv [97, 98, 99]) (by decide)).1
      (literal_zsv [97, 98, 100]).storage (by decide)⟩

/-- C8 (evaluation of the code): `at` is declared `noexcept` (line 82) around the throwing
`storage.at(i)`. In range it returns the element; out of range the underlying access
throws `std::out_of_range`, which cannot leave the `noexcept` wrapper: the program ends
through `std::terminate` and nothing is reported to the caller. -/
theorem at_out_of_range_terminates :
    (literal_zsv [97, 98, 99]).at_ 1 = .returns (some 98) ∧
      (literal_zsv [97, 98, 99]).storage.at_ 3 = .throws_out_of_range ∧
      (literal_zsv [97, 98, 99]).at_ 3 = .terminate ∧
      (literal_zsv [97, 98, 99]).at_ 3 ≠ .throws_out_of_range ∧
      (∀ (v : basic_zstring_view) (i : Nat),
        v.at_ i = if i < v.size then .returns (v.index i) else .terminate) ∧
      (∀ (v : basic_zstring_view) (i : Nat),
        v.storage.at_ i = if i < v.size then .returns (v.index i) else .throws_out_of_range) := by
  refine ⟨by decide, by decide, by decide, by decide, ?_, ?_⟩
  · intro v i
    by_cases h : i < v.storage.size_
    · have h2 : ¬ i ≥ v.storage.size_ := Nat.not_le.mpr h
      simp [basic_zstring_view.at_, basic_string_view.at_, basic_zstring_view.size,
        basic_string_view.size, basic_zstring_view.index, basic_string_view.index, h, h2,
        noexcept_]
    · have h2 : i ≥ v.storage.size_ := Nat.not_lt.mp h
      simp [basic_zstring_view.at_, basic_string_view.at_, basic_zstring_view.size,
        basic_string_view.size, h, h2, noexcept_]
  · intro v i
    by_cases h : i < v.storage.size_
    · have h2 : ¬ i ≥ v.storage.size_ := Nat.not_le.mpr h
      simp [basic_string_view.at_, basic_zstring_view.size, basic_string_view.size,
        basic_zstring_view.index, basic_string_view.index, h, h2]
    · have h2 : i ≥ v.storage.size_ := Nat.not_lt.mp h
      simp [basic_string_view.at_, basic_zstring_view.size, basic_string_view.size, h, h2]

/-- C10: for views `a` and `b` over valid ranges, `a <=> b` is the lexicographic order of
their contents: it is `equal` exactly when `a` and `b` have the same size and elements,
which is also when `a == b`; the first differing element decides; when one is a strict
prefix of the other the shorter is `less`; and the result is `less` / `equal` / `greater`
exactly when `a.compare(b)` is negative / zero / positive. -/
theorem three_way_is_lexicographic (a b : basic_zstring_view) (ha : a.storage.valid)
    (hb : b.storage.valid) :
    (a.three_way b = .equal ↔ same_contents a b) ∧
    (a.equal b = true ↔ same_contents a b) ∧
    (∀ k x y : Nat, k < a.size → k < b.size → a.index k = some x → b.index k = some y →
      (∀ i, i < k → a.index i = b.index i) →
      (x < y → a.three_way b = .less) ∧ (y < x → a.three_way b = .greater)) ∧
    (a.size < b.size → (∀ i, i < a.size → a.index i = b.index i) → a.three_way b = .less) ∧
    (b.size < a.size → (∀ i, i < b.size → a.index i = b.index i) →
      a.three_way b = .greater) ∧
    (a.three_way b = .less ↔ a.compare b.underlying_string_view < 0) ∧
    (a.three_way b = .equal ↔ a.compare b.underlying_string_view = 0) ∧
    (a.three_way b = .greater ↔ 0 < a.compare b.underlying_string_view) := by
  obtain ⟨h1, h2, h3, h4⟩ := compare_contract a.storage b.storage ha.1 hb.1
  have hal := basic_string_view.elems_length ha.1
  have hbl := basic_string_view.elems_length hb.1
  have hae : ∀ i, i < a.storage.size_ → a.storage.elems[i]? = a.index i :=
    fun i hi => basic_string_view.elems_getElem? ha.1 hi
  have hbe : ∀ i, i < b.storage.size_ → b.storage.elems[i]? = b.index i :=
    fun i hi => basic_string_view.elems_getElem? hb.1 hi
  rw [hal, hbl] at h1 h3 h4
  have hless : a.three_way b = .less ↔ a.storage.compare b.storage < 0 := by
    unfold basic_zstring_view.three_way basic_string_view.three_way
    split_ifs with c1 c2 <;> simp [c1]
  have hequal : a.three_way b = .equal ↔ a.storage.compare b.storage = 0 := by
    unfold basic_zstring_view.three_way basic_string_view.three_way
    split_ifs with c1 c2
    · simp only [reduceCtorEq, false_iff]; omega
    · simp [c2]
    · simp [c2]
  have hgreater : a.three_way b = .greater ↔ 0 < a.storage.compare b.storage := by
    unfold basic_zstring_view.three_way basic_string_view.three_way
    split_ifs with c1 c2
    · simp only [reduceCtorEq, false_iff]; omega
    · simp only [reduceCtorEq, false_iff]; omega
    · simp only [true_iff]; omega
  have hsame : a.storage.compare b.storage = 0 ↔ same_contents a b := by
    rw [h1]
    constructor
    · rintro ⟨hl, he⟩
      refine ⟨hl, fun i hi => ?_⟩
      have hi2 : i < a.storage.size_ := hi
      rw [← hae i hi2, ← hbe i (by omega)]
      exact he i hi2
    · rintro ⟨hl, he⟩
      have hl2 : a.storage.size_ = b.storage.size_ := hl
      refine ⟨hl2, fun i hi => ?_⟩
      rw [hae i hi, hbe i (by omega)]
      exact he i hi
  refine ⟨hequal.trans hsame, ?_, ?_, ?_, ?_, hless, hequal, hgreater⟩
  · rw [← hsame]
    simp only [basic_zstring_view.equal, basic_string_view.equal, Bool.and_eq_true,
      beq_iff_eq]
    constructor
    · exact fun h => h.2
    · intro h
      exact ⟨(hsame.1 h).1, h⟩
  · intro k x y hka hkb hx hy hpre
    have hka2 : k < a.storage.size_ := hka
    have hkb2 : k < b.storage.size_ := hkb
    obtain ⟨hlt, hgt⟩ := h2 k x y (by rw [hae k hka2]; exact hx) (by rw [hbe k hkb2]; exact hy)
      (fun i hi => by rw [hae i (by omega), hbe i (by omega)]; exact hpre i hi)
    exact ⟨fun hxy => hless.2 (hlt hxy), fun hyx => hgreater.2 (hgt hyx)⟩
  · intro hl hpre
    have hl2 : a.storage.size_ < b.storage.size_ := hl
    exact hless.2 (h3 hl2 (fun i hi => by rw [hae i hi, hbe i (by omega)]; exact hpre i hi))
  · intro hl hpre
    have hl2 : b.storage.size_ < a.storage.size_ := hl
    exact hgreater.2
      (h4 hl2 (fun i hi => by rw [hae i (by omega), hbe i hi]; exact hpre i hi))

/-- Witness for C10: `"ab"_zsv <=> "abc"_zsv` and `"b"_zsv <=> "abc"_zsv`. -/
theorem three_way_is_lexicographic_witness :
    (literal_zsv [97, 98]).storage.valid ∧ (literal_zsv [97, 98, 99]).storage.valid ∧
    (literal_zsv [97, 98]).three_way (literal_zsv [97, 98, 99]) = .less ∧
    (literal_zsv [98]).three_way (literal_zsv [97, 98, 99]) = .greater ∧
    (literal_zsv [97, 98]).equal (literal_zsv [97, 98]) = true ∧
    ((literal_zsv [97, 98]).three_way (literal_zsv [97, 98, 99]) = .equal ↔
      same_contents (literal_zsv [97, 98]) (literal_zsv [97, 98, 99])) :=
  ⟨by decide, by decide, by decide, by decide, by decide,
    (three_way_is_lexicographic (literal_zsv [97, 98]) (literal_zsv [97, 98, 99])
      (by decide) (by decide)).1⟩

/-- The equality of two views over valid ranges: same size and same elements. -/
theorem equal_iff (x y : basic_string_view)
    (hx : x.size_ = 0 ∨ x.data_.readable x.size_)
    (hy : y.size_ = 0 ∨ y.data_.readable y.size_) :
    x.equal y = true ↔ x.size_ = y.size_ ∧ ∀ i, i < x.size_ → x.index i = y.index i := by
  obtain ⟨h1, _⟩ := compare_contract x y hx hy
  have hxl := basic_string_view.elems_length hx
  have hyl := basic_string_view.elems_length hy
  rw [hxl, hyl] at h1
  simp only [basic_string_view.equal, Bool.and_eq_true, beq_iff_eq]
  constructor
  · rintro ⟨hs, hc⟩
    obtain ⟨_, he⟩ := h1.1 hc
    refine ⟨hs, fun i hi => ?_⟩
    rw [← basic_string_view.elems_getElem? hx hi,
      ← basic_string_view.elems_getElem? hy (by omega)]
    exact he i hi
  · rintro ⟨hs, he⟩
    refine ⟨hs, h1.2 ⟨hs, fun i hi => ?_⟩⟩
    rw [basic_string_view.elems_getElem? hx hi, basic_string_view.elems_getElem? hy (by omega)]
    exact he i hi

theorem in_range_shrink (d : const_pointer) (n m : Nat) (h : n = 0 ∨ d.readable n)
    (hm : m ≤ n) : m = 0 ∨ d.readable m := by
  rcases h with h | h
  · left; omega
  · right; exact const_pointer_readable_mono h hm

theorem cstr_in_range (s : const_pointer) (n : Nat) (hz : s.read n = some 0) :
    n = 0 ∨ s.readable n :=
  Or.inr (const_pointer_readable_mono (const_pointer.readable_of_read hz) (Nat.le_succ n))

/-- The view form of `starts_with` against the bounded prefix of the view. -/
theorem starts_with_view (v p : basic_string_view)
    (hv : v.size_ = 0 ∨ v.data_.readable v.size_)
    (hp : p.size_ = 0 ∨ p.data_.readable p.size_) :
    (v.starts_with p = true ↔
      min p.size_ (v.size_ - 0) = p.size_ ∧
        ∀ i, i < p.size_ → (v.data_.advance 0).read i = p.index i) ∧
    (v.size_ < p.size_ → v.starts_with p = false) ∧
    (p.size_ = 0 → v.starts_with p = true) := by
  have hx := in_range_shrink v.data_ v.size_ (min v.size_ p.size_) hv (Nat.min_le_left _ _)
  have heq := equal_iff ⟨v.data_, min v.size_ p.size_⟩ p hx hp
  have hiff : v.starts_with p = true ↔
      min p.size_ (v.size_ - 0) = p.size_ ∧
        ∀ i, i < p.size_ → (v.data_.advance 0).read i = p.index i := by
    unfold basic_string_view.starts_with
    rw [heq]
    simp only [basic_string_view.index, const_pointer.read_advance, Nat.zero_add, Nat.sub_zero,
      Nat.min_comm v.size_ p.size_]
    constructor
    · rintro ⟨h1, h2⟩
      exact ⟨h1, fun i hi => h2 i (by omega)⟩
    · rintro ⟨h1, h2⟩
      exact ⟨h1, fun i hi => h2 i (by omega)⟩
  refine ⟨hiff, ?_, ?_⟩
  · intro hlt
    cases hb : v.starts_with p with
    | false => rfl
    | true =>
      have := (hiff.1 hb).1
      simp only [Nat.sub_zero] at this
      have : p.size_ ≤ v.size_ := by
        rw [← this]; exact Nat.min_le_right _ _
      omega
  · intro hzero
    apply hiff.2
    refine ⟨by rw [hzero]; exact Nat.zero_min _, fun i hi => by omega⟩

/-- C11: `v.starts_with(p)` is true exactly when the slice `v.substr(0, p.size())` has the size
and the elements of `p`; it is false whenever `p.size() > v.size()` and true for the empty
`p`. The same holds for a single element (a candidate of size 1) and for a raw
null-terminated buffer (the elements before its first zero). -/
theorem starts_with_iff_bounded_substr (v : basic_zstring_view) (hv : v.storage.valid) :
    (∀ p : basic_string_view, p.valid →
      ∃ s : basic_string_view, v.substr_len 0 p.size = .returns s ∧
        (v.starts_with p = true ↔
          s.size = p.size ∧ ∀ i, i < p.size → s.index i = p.index i) ∧
        (v.size < p.size → v.starts_with p = false) ∧
        (p.size = 0 → v.starts_with p = true)) ∧
    (∀ ch : Nat,
      ∃ s : basic_string_view, v.substr_len 0 1 = .returns s ∧
        (v.starts_with_char ch = true ↔ s.size = 1 ∧ s.index 0 = some ch)) ∧
    (∀ (c : const_pointer) (n : Nat), c.read n = some 0 → (∀ j, j < n → c.read j ≠ some 0) →
      ∃ (s : basic_string_view) (b : Bool), v.substr_len 0 n = .returns s ∧
        v.starts_with_cstr c = some b ∧
        (b = true ↔ s.size = n ∧ ∀ i, i < n → s.index i = c.read i) ∧
        (v.size < n → b = false) ∧ (n = 0 → b = true)) := by
  have hsub : ∀ len : Nat, v.substr_len 0 len =
      .returns ⟨v.storage.data_.advance 0, min len (v.storage.size_ - 0)⟩ := by
    intro len
    simp [basic_zstring_view.substr_len, basic_string_view.substr, noexcept_]
  refine ⟨?_, ?_, ?_⟩
  · intro p hp
    exact ⟨_, hsub p.size, starts_with_view v.storage p hv.1 hp.1⟩
  · intro ch
    refine ⟨_, hsub 1, ?_⟩
    simp only [basic_zstring_view.starts_with_char, basic_string_view.starts_with_char,
      basic_string_view.size, basic_string_view.index, const_pointer.read_advance,
      Nat.sub_zero, Nat.add_zero, Bool.and_eq_true, Bool.not_eq_true', beq_eq_false_iff_ne,
      ne_eq, beq_iff_eq]
    constructor
    · rintro ⟨h1, h2⟩
      exact ⟨by omega, h2⟩
    · rintro ⟨h1, h2⟩
      refine ⟨fun h0 => ?_, h2⟩
      rw [h0] at h1
      simp at h1
  · intro c n hz hnz
    have hlen : traits_length c = some n := (traits_length_eq_some c n).2 ⟨hz, hnz⟩
    refine ⟨_, v.storage.starts_with ⟨c, n⟩, hsub n, ?_, ?_⟩
    · simp [basic_zstring_view.starts_with_cstr, basic_string_view.starts_with_cstr,
        basic_string_view.from_pointer, hlen]
    · exact starts_with_view v.storage ⟨c, n⟩ hv.1 (cstr_in_range c n hz)

/-- Witness for C11: prefixes of `"abc"_zsv`. -/
theorem starts_with_iff_bounded_substr_witness :
    (literal_zsv [97, 98, 99]).storage.valid ∧
    (literal_zsv [97, 98, 99]).starts_with (literal_zsv [97, 98]).storage = true ∧
    (literal_zsv [97, 98, 99]).starts_with (literal_zsv [98]).storage = false ∧
    (literal_zsv [97, 98, 99]).starts_with (literal_zsv [97, 98, 99, 100]).storage = false ∧
    (literal_zsv [97, 98, 99]).starts_with (literal_zsv []).storage = true ∧
    (∃ s : basic_string_view, (literal_zsv [97, 98, 99]).substr_len 0 1 = .returns s ∧
      ((literal_zsv [97, 98, 99]).starts_with_char 97 = true ↔
        s.size = 1 ∧ s.index 0 = some 97)) :=
  ⟨by decide, by decide, by decide, by decide, by decide,
    (starts_with_iff_bounded_substr (literal_zsv [97, 98, 99]) (by decide)).2.1 97⟩

/-- C12: the view built from an owning string `s` borrows its buffer and length without a
scan: `data()` is `s.data()`, `size()` is `s.size()` whatever zeros `s` holds, element `i`
is `s[i]` for `i < s.size()`, and `data()[size()] == 0`. -/
theorem from_string_borrows_buffer (s : basic_string) :
    (basic_zstring_view.from_string s).data = s.data ∧
      (basic_zstring_view.from_string s).size = s.size ∧
      (∀ i, i < s.size → (basic_zstring_view.from_string s).index i = s.chars[i]? ∧
        ((basic_zstring_view.from_string s).index i).isSome) ∧
      (basic_zstring_view.from_string s).data.read (basic_zstring_view.from_string s).size =
        some 0 := by
  refine ⟨rfl, rfl, ?_, ?_⟩
  · intro i hi
    have hi2 : i < s.chars.length := hi
    have h : (basic_zstring_view.from_string s).index i = s.chars[i]? := by
      simp [basic_zstring_view.index, basic_zstring_view.from_string,
        basic_string_view.from_string, basic_string_view.index, basic_string.data,
        const_pointer.read, List.getElem?_append_left hi2]
    refine ⟨h, ?_⟩
    rw [h, List.getElem?_eq_getElem hi2]
    rfl
  · exact (terminated_after_string s.chars).2

/-- Witness for C12: the string `a \0 b`, with a zero before its end. -/
theorem from_string_borrows_buffer_witness :
    (basic_zstring_view.from_string ⟨[97, 0, 98]⟩).size = 3 ∧
      (basic_zstring_view.from_string ⟨[97, 0, 98]⟩).index 2 = some 98 ∧
      ((basic_zstring_view.from_string ⟨[97, 0, 98]⟩).index 2 =
          (basic_string.mk [97, 0, 98]).chars[2]? ∧
        ((basic_zstring_view.from_string ⟨[97, 0, 98]⟩).index 2).isSome) :=
  ⟨by decide, by decide, (from_string_borrows_buffer ⟨[97, 0, 98]⟩).2.2.1 2 (by decide)⟩

/-- C13: for each of the five character types, `operator""_zsv(str, len)` returns the view
with `data() == str` and `size() == len`, whatever the buffer holds: no scan takes place,
and zeros among the first `len` elements (as in `"a\0b"_zsv`) do not shorten the view. -/
theorem literal_operator_takes_length_as_given :
    (∀ (T : char_type) (str : const_pointer) (len : Nat),
      (operator_zsv_of T str len).data = str ∧ (operator_zsv_of T str len).size = len ∧
        operator_zsv_of T str len = operator_zsv str len) ∧
      (∀ T : char_type, (operator_zsv_of T (.into [97, 0, 98, 0] 0) 3).size = 3) ∧
      (literal_zsv [97, 0, 98]).size = 3 ∧
      (literal_zsv [97, 0, 98]).index 2 = some 98 ∧
      basic_zstring_view.from_pointer (.into [97, 0, 98, 0] 0) =
        some ⟨⟨.into [97, 0, 98, 0] 0, 1⟩⟩ := by
  refine ⟨?_, ?_, by decide, by decide, by decide⟩
  · intro T str len
    cases T <;> exact ⟨rfl, rfl, rfl⟩
  · intro T
    cases T <;> rfl

/-- C14 (evaluation of the code): the constructors of lines 60-61 take a `const char *` and
a `const std::string &` in every instantiation. For `char` they build the view; for the
wide and the three Unicode character types neither a pointer to, nor a string of, that
type (nor a `char` one) can be used: the construction does not compile. -/
theorem constructors_exist_for_char_only :
    basic_zstring_view.construct_from_pointer .char_ .char_ (.into [97, 98, 0] 0) =
        some (some ⟨⟨.into [97, 98, 0] 0, 2⟩⟩) ∧
      basic_zstring_view.construct_from_string .char_ .char_ ⟨[97, 98]⟩ =
        some ⟨⟨.into [97, 98, 0] 0, 2⟩⟩ ∧
      basic_zstring_view.construct_from_pointer .wchar_t .wchar_t (.into [97, 98, 0] 0) = none ∧
      basic_zstring_view.construct_from_pointer .char8_t .char8_t (.into [97, 98, 0] 0) = none ∧
      basic_zstring_view.construct_from_pointer .char16_t .char16_t (.into [97, 98, 0] 0) = none ∧
      basic_zstring_view.construct_from_pointer .char32_t .char32_t (.into [97, 98, 0] 0) = none ∧
      basic_zstring_view.construct_from_string .wchar_t .wchar_t ⟨[97, 98]⟩ = none ∧
      basic_zstring_view.construct_from_string .char8_t .char8_t ⟨[97, 98]⟩ = none ∧
      basic_zstring_view.construct_from_string .char16_t .char16_t ⟨[97, 98]⟩ = none ∧
      basic_zstring_view.construct_from_string .char32_t .char32_t ⟨[97, 98]⟩ = none ∧
      basic_zstring_view.construct_from_pointer .wchar_t .char_ (.into [97, 98, 0] 0) = none ∧
      basic_zstring_view.construct_from_string .wchar_t .char_ ⟨[97, 98]⟩ = none := by
  decide

theorem range_length (p : const_pointer) (n : Nat) (h : n = 0 ∨ p.readable n) :
    (p.range n).length = n :=
  basic_string_view.elems_length (v := ⟨p, n⟩) h

theorem range_getElem? (p : const_pointer) (n i : Nat) (h : n = 0 ∨ p.readable n)
    (hi : i < n) : (p.range n)[i]? = p.read i :=
  basic_string_view.elems_getElem? (v := ⟨p, n⟩) h hi

/-- What the underlying `copy` returns and leaves in the destination when the start
position is inside the view and the destination has room. -/
theorem copy_returns (v : basic_string_view) (hv : v.size_ = 0 ∨ v.data_.readable v.size_)
    (dest : List Nat) (count pos : Nat) (hpos : pos ≤ v.size_)
    (hroom : min count (v.size_ - pos) ≤ dest.length) :
    v.copy dest count pos = .returns (some (min count (v.size_ - pos),
      (v.data_.advance pos).range (min count (v.size_ - pos)) ++
        dest.drop (min count (v.size_ - pos)))) := by
  have h1 : ¬ pos > v.size_ := Nat.not_lt.mpr hpos
  have h2 := basic_string_view.substr_in_range v pos count hv hpos
  unfold basic_string_view.copy basic_string_view.traits_copy
  rw [if_neg h1, if_pos ⟨hroom, h2⟩]
  rfl

/-- The copy into a destination array of its own: for `pos <= size()` and a destination with
room for `r = min(count, size() - pos)` elements, the call returns `r`, leaves
`v[pos + i]` in `dest[i]` for every `i < r`, and leaves every destination element at an
index `>= r` as it was (no terminator is written). -/
theorem copy_writes_exactly_the_range (v : basic_zstring_view) (hv : v.storage.valid)
    (dest : List Nat) (count pos : Nat) (hpos : pos ≤ v.size)
    (hroom : min count (v.size - pos) ≤ dest.length) :
    ∃ d : List Nat, v.copy_ dest count (some pos) =
        .returns (some (min count (v.size - pos), d)) ∧
      d.length = dest.length ∧
      (∀ i, i < min count (v.size - pos) → d[i]? = v.index (pos + i)) ∧
      (∀ i, min count (v.size - pos) ≤ i → d[i]? = dest[i]?) := by
  have hr := basic_string_view.substr_in_range v.storage pos count hv.1 hpos
  have hlen := range_length _ _ hr
  refine ⟨(v.storage.data_.advance pos).range (min count (v.storage.size_ - pos)) ++
    dest.drop (min count (v.storage.size_ - pos)), ?_, ?_, ?_, ?_⟩
  · simp only [basic_zstring_view.copy_, Option.getD_some]
    rw [copy_returns v.storage hv.1 dest count pos hpos hroom]
    rfl
  · rw [List.length_append, hlen, List.length_drop]
    have : min count (v.storage.size_ - pos) ≤ dest.length := hroom
    omega
  · intro i hi
    have hi2 : i < min count (v.storage.size_ - pos) := hi
    rw [List.getElem?_append_left (by rw [hlen]; exact hi2), range_getElem? _ _ _ hr hi2,
      const_pointer.read_advance]
    rfl
  · intro i hi
    have hi2 : min count (v.storage.size_ - pos) ≤ i := hi
    rw [List.getElem?_append_right (by rw [hlen]; exact hi2), hlen, List.getElem?_drop]
    congr 1
    omega

/-- An instance of the copy into an array of its own: `"abcd"_zsv.copy(dest, 2, 1)` into a
buffer of five elements. -/
theorem copy_writes_exactly_the_range_witness :
    (literal_zsv [97, 98, 99, 100]).copy_ [1, 2, 3, 4, 5] 2 (some 1) =
        .returns (some (2, [98, 99, 3, 4, 5])) ∧
      (∃ d : List Nat, (literal_zsv [97, 98, 99, 100]).copy_ [1, 2, 3, 4, 5] 2 (some 1) =
          .returns (some (min 2 ((literal_zsv [97, 98, 99, 100]).size - 1), d)) ∧
        d.length = [1, 2, 3, 4, 5].length ∧
        (∀ i, i < min 2 ((literal_zsv [97, 98, 99, 100]).size - 1) →
          d[i]? = (literal_zsv [97, 98, 99, 100]).index (1 + i)) ∧
        (∀ i, min 2 ((literal_zsv [97, 98, 99, 100]).size - 1) ≤ i →
          d[i]? = [1, 2, 3, 4, 5][i]?)) :=
  ⟨by decide, copy_writes_exactly_the_range (literal_zsv [97, 98, 99, 100]) (by decide)
    [1, 2, 3, 4, 5] 2 1 (by decide) (by decide)⟩

/-- C16, as stated, fails: `"a\0b"_zsv` is a terminated view of size 3; its conversion to
the underlying view keeps pointer and size, but the raw-pointer construction on that
pointer scans to the first zero and gives a view of size 1. -/
theorem round_trip_stops_at_inner_zero :
    (literal_zsv [97, 0, 98]).terminated ∧
      (literal_zsv [97, 0, 98]).size = 3 ∧
      (literal_zsv [97, 0, 98]).underlying_string_view.data = (literal_zsv [97, 0, 98]).data ∧
      (literal_zsv [97, 0, 98]).underlying_string_view.size = 3 ∧
      basic_zstring_view.from_pointer (literal_zsv [97, 0, 98]).underlying_string_view.data =
        some ⟨⟨.into [97, 0, 98, 0] 0, 1⟩⟩ ∧
      ¬ (∃ w : basic_zstring_view,
        basic_zstring_view.from_pointer (literal_zsv [97, 0, 98]).underlying_string_view.data =
          some w ∧ w.size = (literal_zsv [97, 0, 98]).size) := by
  refine ⟨by decide, by decide, rfl, by decide, by decide, ?_⟩
  rintro ⟨w, hw, hsz⟩
  have h : basic_zstring_view.from_pointer
      (literal_zsv [97, 0, 98]).underlying_string_view.data =
      some ⟨⟨.into [97, 0, 98, 0] 0, 1⟩⟩ := by decide
  rw [h] at hw
  injection hw with hw
  subst hw
  exact absurd hsz (by decide)

/-- C16, amended: for every terminated view `v` none of whose `size()` elements is zero, the
conversion to the underlying view gives a slice with the data pointer, size and elements
of `v`, and the raw-pointer construction on that slice's data pointer gives back a view
with the size and the elements of `v` (it is `v` itself). -/
theorem round_trip_without_inner_zero (v : basic_zstring_view)
    (hterm : v.data.read v.size = some 0) (hnz : ∀ i, i < v.size → v.index i ≠ some 0) :
    v.underlying_string_view.data = v.data ∧
      v.underlying_string_view.size = v.size ∧
      (∀ i, v.underlying_string_view.index i = v.index i) ∧
      ∃ w : basic_zstring_view,
        basic_zstring_view.from_pointer v.underlying_string_view.data = some w ∧
          w.size = v.size ∧ (∀ i, i < v.size → w.index i = v.index i) ∧ w = v := by
  refine ⟨rfl, rfl, fun _ => rfl, v, ?_, rfl, fun _ _ => rfl, rfl⟩
  have hlen : traits_length v.storage.data_ = some v.storage.size_ :=
    (traits_length_eq_some _ _).2 ⟨hterm, hnz⟩
  show Option.map _ (Option.map _ (traits_length v.storage.data_)) = some v
  rw [hlen]
  rfl

/-- Witness for C16: `"abc"_zsv.substr(1)`, the view of `bc`. -/
theorem round_trip_without_inner_zero_witness :
    basic_zstring_view.from_pointer
        (basic_zstring_view.underlying_string_view ⟨⟨.into [97, 98, 99, 0] 1, 2⟩⟩).data =
        some ⟨⟨.into [97, 98, 99, 0] 1, 2⟩⟩ ∧
      (∃ w : basic_zstring_view,
        basic_zstring_view.from_pointer
          (basic_zstring_view.underlying_string_view ⟨⟨.into [97, 98, 99, 0] 1, 2⟩⟩).data =
            some w ∧
          w.size = basic_zstring_view.size ⟨⟨.into [97, 98, 99, 0] 1, 2⟩⟩ ∧
          (∀ i, i < basic_zstring_view.size ⟨⟨.into [97, 98, 99, 0] 1, 2⟩⟩ →
            w.index i = basic_zstring_view.index ⟨⟨.into [97, 98, 99, 0] 1, 2⟩⟩ i) ∧
          w = ⟨⟨.into [97, 98, 99, 0] 1, 2⟩⟩) :=
  ⟨by decide,
    (round_trip_without_inner_zero ⟨⟨.into [97, 98, 99, 0] 1, 2⟩⟩ (by decide)
      (by decide)).2.2.2⟩

/-- Two views over valid ranges with the same size and elements view the same sequence. -/
theorem elems_eq_of_same_elements (x y : basic_string_view) (hx : x.valid) (hy : y.valid)
    (hs : x.size_ = y.size_) (he : ∀ i, i < x.size_ → x.index i = y.index i) :
    x.elems = y.elems := by
  have hxl := basic_string_view.elems_length hx.1
  have hyl := basic_string_view.elems_length hy.1
  apply List.ext_getElem?
  intro i
  by_cases hi : i < x.size_
  · rw [basic_string_view.elems_getElem? hx.1 hi,
      basic_string_view.elems_getElem? hy.1 (by omega)]
    exact he i hi
  · rw [List.getElem?_eq_none (by omega), List.getElem?_eq_none (by omega)]

/-- C17: the hash of a terminated view `z` is the underlying view's hash of its content: it
equals the hash of every plain view and of every terminated view with the same size and
the same elements, wherever their buffers are and whatever follows their last element. -/
theorem hash_depends_on_content_only (h : List Nat → Nat) (z : basic_zstring_view)
    (hz : z.storage.valid) :
    (∀ s : basic_string_view, s.valid → z.size = s.size →
      (∀ i, i < z.size → z.index i = s.index i) → hash h z = basic_string_view.hash h s) ∧
    (∀ t : basic_zstring_view, t.storage.valid → z.size = t.size →
      (∀ i, i < z.size → z.index i = t.index i) → hash h z = hash h t) ∧
    hash h z = basic_string_view.hash h z.underlying_string_view ∧
    hash h z = h (z.data.range z.size) := by
  refine ⟨?_, ?_, rfl, rfl⟩
  · intro s hs hsz he
    show h z.storage.elems = h s.elems
    rw [elems_eq_of_same_elements z.storage s hz hs hsz he]
  · intro t ht hsz he
    show h z.storage.elems = h t.storage.elems
    rw [elems_eq_of_same_elements z.storage t.storage hz ht hsz he]

/-- Witness for C17: the view of `ab` inside `"xab"_zsv` against the unterminated view of
the first two elements of the buffer `abc`, under a polynomial hash. -/
theorem hash_depends_on_content_only_witness :
    hash (fun l => l.foldl (fun a c => (a * 31 + c) % 2 ^ 64) 7)
        ⟨⟨.into [120, 97, 98, 0] 1, 2⟩⟩ =
      basic_string_view.hash (fun l => l.foldl (fun a c => (a * 31 + c) % 2 ^ 64) 7)
        ⟨.into [97, 98, 99] 0, 2⟩ :=
  (hash_depends_on_content_only (fun l => l.foldl (fun a c => (a * 31 + c) % 2 ^ 64) 7)
    ⟨⟨.into [120, 97, 98, 0] 1, 2⟩⟩ (by decide)).1 ⟨.into [97, 98, 99] 0, 2⟩ (by decide)
    (by decide) (by decide)

theorem substr_past_end (v : basic_zstring_view) (pos : Nat) (hpos : v.size < pos) :
    v.substr pos = .terminate := by
  have h : pos > v.storage.size_ := hpos
  simp [basic_zstring_view.substr, basic_string_view.substr, h, noexcept_]

theorem substr_len_past_end (v : basic_zstring_view) (pos len : Nat) (hpos : v.size < pos) :
    v.substr_len pos len = .terminate := by
  have h : pos > v.storage.size_ := hpos
  simp [basic_zstring_view.substr_len, basic_string_view.substr, h, noexcept_]

theorem copy_past_end (v : basic_zstring_view) (dest : List Nat) (count pos : Nat)
    (hpos : v.size < pos) : v.copy_ dest count (some pos) = .terminate := by
  have h : pos > v.storage.size_ := hpos
  simp [basic_zstring_view.copy_, basic_string_view.copy, h, noexcept_]

/-- C18: `substr(pos)`, `substr(pos, len)` and `copy(dest, count, pos)` (into a destination
with room for the copied elements) produce a result exactly when `pos <= size()`; at
`pos == size()` the result is empty; for `pos > size()`, whatever `len` and `count`, the
call does not return: it ends in `std::terminate`, and no view, slice or count is
produced. -/
theorem slicing_fails_exactly_past_the_end (v : basic_zstring_view) (hv : v.storage.valid) :
    (∀ pos : Nat, (∃ w : basic_zstring_view, v.substr pos = .returns w) ↔ pos ≤ v.size) ∧
    (∀ pos len : Nat,
      (∃ s : basic_string_view, v.substr_len pos len = .returns s) ↔ pos ≤ v.size) ∧
    (∀ (dest : List Nat) (count pos : Nat), min count (v.size - pos) ≤ dest.length →
      ((∃ (r : Nat) (d : List Nat), v.copy_ dest count (some pos) = .returns (some (r, d))) ↔
        pos ≤ v.size)) ∧
    (∀ pos : Nat, v.size < pos →
      v.substr pos = .terminate ∧ (∀ len : Nat, v.substr_len pos len = .terminate) ∧
        (∀ (dest : List Nat) (count : Nat), v.copy_ dest count (some pos) = .terminate)) ∧
    ((∃ w : basic_zstring_view, v.substr v.size = .returns w ∧ w.size = 0) ∧
      (∀ len : Nat, ∃ s : basic_string_view, v.substr_len v.size len = .returns s ∧ s.size = 0) ∧
      (∀ (dest : List Nat) (count : Nat),
        v.copy_ dest count (some v.size) = .returns (some (0, dest)))) := by
  refine ⟨?_, ?_, ?_, ?_, ?_, ?_, ?_⟩
  · intro pos
    constructor
    · rintro ⟨w, hw⟩
      by_contra hcon
      rw [substr_past_end v pos (Nat.not_le.mp hcon)] at hw
      exact absurd hw (by simp)
    · intro hpos
      have h : ¬ pos > v.storage.size_ := Nat.not_lt.mpr hpos
      exact ⟨⟨⟨v.storage.data_.advance pos, min SIZE_MAX (v.storage.size_ - pos)⟩⟩,
        by simp [basic_zstring_view.substr, basic_string_view.substr, h, noexcept_]⟩
  · intro pos len
    constructor
    · rintro ⟨w, hw⟩
      by_contra hcon
      rw [substr_len_past_end v pos len (Nat.not_le.mp hcon)] at hw
      exact absurd hw (by simp)
    · intro hpos
      have h : ¬ pos > v.storage.size_ := Nat.not_lt.mpr hpos
      exact ⟨⟨v.storage.data_.advance pos, min len (v.storage.size_ - pos)⟩,
        by simp [basic_zstring_view.substr_len, basic_string_view.substr, h, noexcept_]⟩
  · intro dest count pos hroom
    constructor
    · rintro ⟨r, d, hw⟩
      by_contra hcon
      rw [copy_past_end v dest count pos (Nat.not_le.mp hcon)] at hw
      exact absurd hw (by simp)
    · intro hpos
      refine ⟨min count (v.storage.size_ - pos),
        (v.storage.data_.advance pos).range (min count (v.storage.size_ - pos)) ++
          dest.drop (min count (v.storage.size_ - pos)), ?_⟩
      simp only [basic_zstring_view.copy_, Option.getD_some]
      rw [copy_returns v.storage hv.1 dest count pos hpos hroom]
      rfl
  · intro pos hpos
    exact ⟨substr_past_end v pos hpos, fun len => substr_len_past_end v pos len hpos,
      fun dest count => copy_past_end v dest count pos hpos⟩
  · refine ⟨⟨v.storage.data_.advance v.storage.size_,
      min SIZE_MAX (v.storage.size_ - v.storage.size_)⟩, ?_, ?_⟩
    · simp [basic_zstring_view.substr, basic_string_view.substr, basic_zstring_view.size,
        basic_string_view.size, noexcept_]
    · simp [basic_zstring_view.size, basic_string_view.size]
  · intro len
    refine ⟨⟨v.storage.data_.advance v.storage.size_,
      min len (v.storage.size_ - v.storage.size_)⟩, ?_, ?_⟩
    · simp [basic_zstring_view.substr_len, basic_string_view.substr, basic_zstring_view.size,
        basic_string_view.size, noexcept_]
    · simp [basic_string_view.size]
  · intro dest count
    have hroom : min count (v.storage.size_ - v.storage.size_) ≤ dest.length := by
      rw [Nat.sub_self, Nat.min_zero]; exact Nat.zero_le _
    simp only [basic_zstring_view.copy_, Option.getD_some, basic_zstring_view.size,
      basic_string_view.size]
    rw [copy_returns v.storage hv.1 dest count v.storage.size_ (Nat.le_refl _) hroom]
    have h0 : min count (v.storage.size_ - v.storage.size_) = 0 := by
      rw [Nat.sub_self, Nat.min_zero]
    rw [h0]
    have hrange : (v.storage.data_.advance v.storage.size_).range 0 = [] := by
      cases v.storage.data_ <;> simp [const_pointer.advance, const_pointer.range]
    rw [hrange]
    rfl

/-- Witness for C18: `"abc"_zsv` at the positions 3 and 4. -/
theorem slicing_fails_exactly_past_the_end_witness :
    (literal_zsv [97, 98, 99]).storage.valid ∧
      (literal_zsv [97, 98, 99]).substr 3 = .returns ⟨⟨.into [97, 98, 99, 0] 3, 0⟩⟩ ∧
      (literal_zsv [97, 98, 99]).substr 4 = .terminate ∧
      (literal_zsv [97, 98, 99]).substr_len 4 0 = .terminate ∧
      (literal_zsv [97, 98, 99]).copy_ [1, 2] 0 (some 4) = .terminate ∧
      ((∃ w : basic_zstring_view, (literal_zsv [97, 98, 99]).substr 4 = .returns w) ↔
        4 ≤ (literal_zsv [97, 98, 99]).size) :=
  ⟨by decide, by decide, by decide, by decide, by decide,
    (slicing_fails_exactly_past_the_end (literal_zsv [97, 98, 99]) (by decide)).1 4⟩

theorem advance_in_range (v : basic_string_view)
    (hv : v.size_ = 0 ∨ v.data_.readable v.size_) (pos n : Nat) (h : pos + n ≤ v.size_) :
    n = 0 ∨ (v.data_.advance pos).readable n := by
  rcases hv with h0 | hr
  · left; omega
  · right
    cases v with
    | mk d sz =>
      cases d with
      | null => exact hr
      | into arr off =>
        simp only [const_pointer.readable, const_pointer.advance] at hr h ⊢
        omega

/-- The view form of `ends_with` against the last elements of the view. -/
theorem ends_with_view (v x : basic_string_view)
    (hv : v.size_ = 0 ∨ v.data_.readable v.size_)
    (hx : x.size_ = 0 ∨ x.data_.readable x.size_) :
    v.ends_with x = true ↔
      x.size_ ≤ v.size_ ∧ ∀ j, j < x.size_ → v.index (v.size_ - x.size_ + j) = x.index j := by
  have hin := advance_in_range v hv (v.size_ - min v.size_ x.size_) (min v.size_ x.size_)
    (by have := Nat.min_le_left v.size_ x.size_; omega)
  unfold basic_string_view.ends_with
  rw [equal_iff _ x hin hx]
  simp only [basic_string_view.index, const_pointer.read_advance]
  constructor
  · rintro ⟨h1, h2⟩
    have hle : x.size_ ≤ v.size_ := by
      rw [← h1]; exact Nat.min_le_left _ _
    refine ⟨hle, fun j hj => ?_⟩
    have := h2 j (by omega)
    rw [h1] at this
    exact this
  · rintro ⟨h1, h2⟩
    have hmin : min v.size_ x.size_ = x.size_ := Nat.min_eq_right h1
    refine ⟨hmin, fun j hj => ?_⟩
    rw [hmin]
    exact h2 j (by omega)

/-- C19: `v.contains(x)` is true exactly when `v.find(x) != npos`, and `v.ends_with(x)` is
true exactly when `x` is no longer than `v` and the last `x.size()` elements of `v` are
those of `x`; each for `x` a view, a single element (a needle of size 1) and a raw
null-terminated buffer (the elements before its first zero). -/
theorem predicates_agree_with_searches (v : basic_zstring_view) (hv : v.storage.valid) :
    (∀ x : basic_string_view, v.contains x = true ↔ v.find x none ≠ npos) ∧
    (∀ ch : Nat, v.contains_char ch = true ↔ v.find_char ch none ≠ npos) ∧
    (∀ (c : const_pointer) (n : Nat), c.read n = some 0 → (∀ j, j < n → c.read j ≠ some 0) →
      ∃ (b : Bool) (r : Nat), v.contains_cstr c = some b ∧ v.find_cstr c none = some r ∧
        (b = true ↔ r ≠ npos)) ∧
    (∀ x : basic_string_view, x.valid →
      (v.ends_with x = true ↔
        x.size ≤ v.size ∧ ∀ j, j < x.size → v.index (v.size - x.size + j) = x.index j)) ∧
    (∀ ch : Nat,
      v.ends_with_char ch = true ↔ 1 ≤ v.size ∧ v.index (v.size - 1) = some ch) ∧
    (∀ (c : const_pointer) (n : Nat), c.read n = some 0 → (∀ j, j < n → c.read j ≠ some 0) →
      ∃ b : Bool, v.ends_with_cstr c = some b ∧
        (b = true ↔
          n ≤ v.size ∧ ∀ j, j < n → v.index (v.size - n + j) = c.read j)) := by
  refine ⟨?_, ?_, ?_, ?_, ?_, ?_⟩
  · intro x
    simp [basic_zstring_view.contains, basic_string_view.contains, basic_zstring_view.find,
      basic_string_view.find, npos]
  · intro ch
    simp [basic_zstring_view.contains_char, basic_string_view.contains_char,
      basic_zstring_view.find_char, basic_string_view.find_char, npos]
  · intro c n hz hnz
    have hlen : traits_length c = some n := (traits_length_eq_some c n).2 ⟨hz, hnz⟩
    refine ⟨basic_string_view.find_elems v.storage (basic_string_view.elems ⟨c, n⟩) 0 !=
      SIZE_MAX, basic_string_view.find_elems v.storage (basic_string_view.elems ⟨c, n⟩) 0,
      ?_, ?_, ?_⟩
    · simp [basic_zstring_view.contains_cstr, basic_string_view.contains_cstr,
        basic_string_view.find_cstr, basic_string_view.from_pointer, hlen,
        basic_string_view.find]
    · simp [basic_zstring_view.find_cstr, basic_string_view.find_cstr,
        basic_string_view.from_pointer, hlen, basic_string_view.find]
    · simp [npos]
  · intro x hx
    exact ends_with_view v.storage x hv.1 hx.1
  · intro ch
    simp only [basic_zstring_view.ends_with_char, basic_string_view.ends_with_char,
      basic_zstring_view.size, basic_string_view.size, basic_zstring_view.index,
      basic_string_view.index, Bool.and_eq_true, Bool.not_eq_true', beq_eq_false_iff_ne,
      ne_eq, beq_iff_eq]
    constructor
    · rintro ⟨h1, h2⟩
      exact ⟨by omega, h2⟩
    · rintro ⟨h1, h2⟩
      exact ⟨by omega, h2⟩
  · intro c n hz hnz
    have hlen : traits_length c = some n := (traits_length_eq_some c n).2 ⟨hz, hnz⟩
    refine ⟨v.storage.ends_with ⟨c, n⟩, ?_, ?_⟩
    · simp [basic_zstring_view.ends_with_cstr, basic_string_view.ends_with_cstr,
        basic_string_view.from_pointer, hlen]
    · exact ends_with_view v.storage ⟨c, n⟩ hv.1 (cstr_in_range c n hz)

/-- Witness for C19: `"abcab"_zsv` and the needle `ab`. -/
theorem predicates_agree_with_searches_witness :
    (literal_zsv [97, 98, 99, 97, 98]).storage.valid ∧
      (literal_zsv [97, 98, 99, 97, 98]).contains (literal_zsv [99, 97]).storage = true ∧
      (literal_zsv [97, 98, 99, 97, 98]).contains (literal_zsv [99, 99]).storage = false ∧
      (literal_zsv [97, 98, 99, 97, 98]).ends_with (literal_zsv [97, 98]).storage = true ∧
      (literal_zsv [97, 98, 99, 97, 98]).ends_with (literal_zsv [98, 99]).storage = false ∧
      ((literal_zsv [97, 98, 99, 97, 98]).ends_with (literal_zsv [97, 98]).storage = true ↔
        (literal_zsv [97, 98]).storage.size ≤ (literal_zsv [97, 98, 99, 97, 98]).size ∧
          ∀ j, j < (literal_zsv [97, 98]).storage.size →
            (literal_zsv [97, 98, 99, 97, 98]).index
                ((literal_zsv [97, 98, 99, 97, 98]).size - (literal_zsv [97, 98]).storage.size +
                  j) =
              (literal_zsv [97, 98]).storage.index j) :=
  ⟨by decide, by decide, by decide, by decide, by decide,
    (predicates_agree_with_searches (literal_zsv [97, 98, 99, 97, 98]) (by decide)).2.2.2.1
      (literal_zsv [97, 98]).storage (by decide)⟩

/-- C15, as stated, fails: line 99 takes any `T *`, also one into the buffer the view looks
at. For `char buf[] = "abcdef"` and the view `v` of it, `v.copy(buf, 2, 3)` has room and
copies `de` over `ab`, so `v[0]` changes from `a` to `d`; `v.copy(buf + 6, 1, 0)` writes
`a` over the terminator, and `v` is no longer terminated. -/
theorem copy_into_viewed_buffer_changes_view :
    basic_zstring_view.from_pointer (.into [97, 98, 99, 100, 101, 102, 0] 0) =
        some ⟨⟨.into [97, 98, 99, 100, 101, 102, 0] 0, 6⟩⟩ ∧
      basic_zstring_view.copy_to ⟨⟨.into [97, 98, 99, 100, 101, 102, 0] 0, 6⟩⟩
          (.inside 0) 2 (some 3) =
        .returns (some ⟨2, [100, 101, 99, 100, 101, 102, 0],
          ⟨⟨.into [100, 101, 99, 100, 101, 102, 0] 0, 6⟩⟩⟩) ∧
      basic_zstring_view.index ⟨⟨.into [97, 98, 99, 100, 101, 102, 0] 0, 6⟩⟩ 0 = some 97 ∧
      basic_zstring_view.index ⟨⟨.into [100, 101, 99, 100, 101, 102, 0] 0, 6⟩⟩ 0 = some 100 ∧
      basic_zstring_view.copy_to ⟨⟨.into [97, 98, 99, 100, 101, 102, 0] 0, 6⟩⟩
          (.inside 6) 1 (some 0) =
        .returns (some ⟨1, [97], ⟨⟨.into [97, 98, 99, 100, 101, 102, 97] 0, 6⟩⟩⟩) ∧
      basic_zstring_view.terminated ⟨⟨.into [97, 98, 99, 100, 101, 102, 0] 0, 6⟩⟩ ∧
      ¬ basic_zstring_view.terminated ⟨⟨.into [97, 98, 99, 100, 101, 102, 97] 0, 6⟩⟩ := by
  decide

/-- The copy into the viewed array itself, the written and the copied elements apart. -/
theorem copy_within_returns (arr : List Nat) (off size d count pos : Nat)
    (hv : size = 0 ∨ off + size ≤ arr.length) (hpos : pos ≤ size)
    (hroom : d + min count (size - pos) ≤ arr.length)
    (hapart : d + min count (size - pos) ≤ off + pos ∨
      off + pos + min count (size - pos) ≤ d) :
    basic_string_view.copy_within ⟨.into arr off, size⟩ d count pos =
      .returns (some (min count (size - pos),
        basic_string_view.assign_each arr d (off + pos) (min count (size - pos)))) := by
  have h1 : ¬ pos > size := Nat.not_lt.mpr hpos
  have h2 : min count (size - pos) = 0 ∨ off + pos + min count (size - pos) ≤ arr.length := by
    rcases hv with h | h
    · left; omega
    · right
      have := Nat.min_le_right count (size - pos)
      omega
  have h3 : ¬ (d ≤ off + pos ∧ off + pos < d + min count (size - pos)) := by omega
  simp only [basic_string_view.copy_within, h1, if_false, basic_string_view.traits_copy_within]
  rw [if_pos ⟨hroom, h2, h3⟩]
  rfl

/-- C15, amended: for `pos <= size()` and a destination with room for
`r = min(count, size() - pos)` elements that does not overlap the copied elements
`v[pos], ..., v[pos + r - 1]`, `v.copy(dest, count, pos)` returns `r`, leaves `v[pos + i]`
in `dest[i]` for every `i < r`, leaves every destination element at an index `>= r` as it
was (no terminator is written), and leaves the data pointer and the size of `v` as they
were. A destination outside the buffer `v` looks at leaves `v` wholly unchanged; a
destination inside it changes the elements of that buffer it is written to and no
others. -/
theorem copy_writes_destination_only (v : basic_zstring_view) (hv : v.storage.valid)
    (count pos : Nat) (hpos : pos ≤ v.size) :
    (∀ dest : List Nat, min count (v.size - pos) ≤ dest.length →
      ∃ d : List Nat, v.copy_to (.outside dest) count (some pos) =
          .returns (some ⟨min count (v.size - pos), d, v⟩) ∧
        d.length = dest.length ∧
        (∀ i, i < min count (v.size - pos) → d[i]? = v.index (pos + i)) ∧
        (∀ i, min count (v.size - pos) ≤ i → d[i]? = dest[i]?)) ∧
    (∀ (arr : List Nat) (off d : Nat), v.data = .into arr off →
      d + min count (v.size - pos) ≤ arr.length →
      (d + min count (v.size - pos) ≤ off + pos ∨
        off + pos + min count (v.size - pos) ≤ d) →
      ∃ a : List Nat, v.copy_to (.inside d) count (some pos) =
          .returns (some ⟨min count (v.size - pos), a.drop d, ⟨⟨.into a off, v.size⟩⟩⟩) ∧
        a.length = arr.length ∧
        (∀ i, i < min count (v.size - pos) → (a.drop d)[i]? = v.index (pos + i)) ∧
        (∀ i, min count (v.size - pos) ≤ i → (a.drop d)[i]? = (arr.drop d)[i]?) ∧
        (∀ j, j < d ∨ d + min count (v.size - pos) ≤ j → a[j]? = arr[j]?)) := by
  constructor
  · intro dest hroom
    obtain ⟨d, h1, h2, h3, h4⟩ := copy_writes_exactly_the_range v hv dest count pos hpos hroom
    refine ⟨d, ?_, h2, h3, h4⟩
    simp only [basic_zstring_view.copy_to, h1]
    rfl
  · intro arr off d hdata hroom hapart
    obtain ⟨⟨dp, sz⟩⟩ := v
    have hdp : dp = .into arr off := hdata
    subst hdp
    have hroom2 : d + min count (sz - pos) ≤ arr.length := hroom
    have hapart2 : d + min count (sz - pos) ≤ off + pos ∨
        off + pos + min count (sz - pos) ≤ d := hapart
    have hpos2 : pos ≤ sz := hpos
    have hv1 : sz = 0 ∨ off + sz ≤ arr.length := hv.1
    have hp : min count (sz - pos) = 0 ∨ off + pos + min count (sz - pos) ≤ arr.length := by
      rcases hv1 with h | h
      · left; omega
      · right
        have := Nat.min_le_right count (sz - pos)
        omega
    have hget := basic_string_view.assign_each_getElem? arr d (off + pos)
      (min count (sz - pos)) hroom2 hp hapart2
    refine ⟨basic_string_view.assign_each arr d (off + pos) (min count (sz - pos)), ?_,
      basic_string_view.assign_each_length _ _ _ _, ?_, ?_, ?_⟩
    · simp only [basic_zstring_view.copy_to, Option.getD_some]
      rw [copy_within_returns arr off sz d count pos hv1 hpos2 hroom2 hapart2]
      rfl
    · intro i hi
      have hi2 : i < min count (sz - pos) := hi
      rw [List.getElem?_drop, hget, if_pos (by omega)]
      have : off + pos + (d + i - d) = off + (pos + i) := by omega
      rw [this]
      rfl
    · intro i hi
      have hi2 : min count (sz - pos) ≤ i := hi
      rw [List.getElem?_drop, List.getElem?_drop, hget, if_neg (by omega)]
    · intro j hj
      have hj2 : j < d ∨ d + min count (sz - pos) ≤ j := hj
      rw [hget, if_neg (by omega)]

/-- Witness for C15: `"abcd"_zsv.copy(dest, 2, 1)` into a buffer of five elements of its own,
and the view of `abcdef` in `char buf[7]` copied by `copy(buf + 4, 2, 0)`. -/
theorem copy_writes_destination_only_witness :
    (literal_zsv [97, 98, 99, 100]).copy_to (.outside [1, 2, 3, 4, 5]) 2 (some 1) =
        .returns (some ⟨2, [98, 99, 3, 4, 5], literal_zsv [97, 98, 99, 100]⟩) ∧
      basic_zstring_view.copy_to ⟨⟨.into [97, 98, 99, 100, 101, 102, 0] 0, 6⟩⟩
          (.inside 4) 2 (some 0) =
        .returns (some ⟨2, [97, 98, 0], ⟨⟨.into [97, 98, 99, 100, 97, 98, 0] 0, 6⟩⟩⟩) ∧
      (∃ d : List Nat,
        (literal_zsv [97, 98, 99, 100]).copy_to (.outside [1, 2, 3, 4, 5]) 2 (some 1) =
          .returns (some ⟨min 2 ((literal_zsv [97, 98, 99, 100]).size - 1), d,
            literal_zsv [97, 98, 99, 100]⟩) ∧
        d.length = [1, 2, 3, 4, 5].length ∧
        (∀ i, i < min 2 ((literal_zsv [97, 98, 99, 100]).size - 1) →
          d[i]? = (literal_zsv [97, 98, 99, 100]).index (1 + i)) ∧
        (∀ i, min 2 ((literal_zsv [97, 98, 99, 100]).size - 1) ≤ i →
          d[i]? = [1, 2, 3, 4, 5][i]?)) :=
  ⟨by decide, by decide,
    (copy_writes_destination_only (literal_zsv [97, 98, 99, 100]) (by decide) 2 1
      (by decide)).1 [1, 2, 3, 4, 5] (by decide)⟩

end em
